import Mathlib

/-!
# Verification of the probability.js numerical core

A shallow embedding of `src/js/helpers.js` and `src/js/probability.js`.

Modelling conventions:
* JavaScript numbers are modelled by `JsNum`: an exact rational together with
  the special values `Infinity`, `-Infinity`, `NaN` and `undefined`
  (`undefined` behaves like `NaN` inside arithmetic, which is what JavaScript
  coercion does, but is kept distinct because the library uses `undefined` as
  an explicit failure sentinel).  Floating-point rounding and overflow are
  idealised away: decimal literals from the source denote the corresponding
  exact rationals.  `-0` is identified with `0`.
* The transcendental primitives of the host (`Math.exp`, `Math.sqrt`,
  `Math.sin`, `Math.log`, and `Math.pow` on a positive base with a
  non-integral exponent) are abstracted as a bundle `JsOps` of rational-valued
  functions; every statement quantifies over (or instantiates) such a bundle.
  `Math.pow` at an integral exponent, and all branch structure of `Math.pow`
  (NaN for a negative base with fractional exponent, the zero/infinity cases),
  are computed exactly.
* Loops whose termination is not structurally evident are modelled with an
  explicit fuel parameter, `none` meaning the loop has not returned within
  the given fuel.  Termination (or genuine divergence) is then a statement
  about the existence (or non-existence) of adequate fuel.
-/

set_option maxRecDepth 4000

/-- JavaScript numeric values: exact rational, the two infinities, `NaN`,
and the `undefined` value (distinct from `NaN` as a sentinel, equal to it
under arithmetic coercion). -/
inductive JsNum where
  | num (q : ℚ)
  | inf
  | ninf
  | nan
  | undef
deriving DecidableEq, Repr

namespace JsNum

instance : OfNat JsNum n := ⟨num n⟩

instance : Coe ℚ JsNum := ⟨num⟩

/-- JavaScript `isNaN` (true on `NaN` and on `undefined`, which coerces to `NaN`). -/
def isNaNb : JsNum → Bool
  | nan => true
  | undef => true
  | _ => false

/-- Negation. -/
def jneg : JsNum → JsNum
  | num q => num (-q)
  | inf => ninf
  | ninf => inf
  | _ => nan

/-- Addition, with JavaScript special-value rules (`∞ + -∞ = NaN`). -/
def jadd : JsNum → JsNum → JsNum
  | num a, num b => num (a + b)
  | num _, inf => inf
  | num _, ninf => ninf
  | inf, num _ => inf
  | ninf, num _ => ninf
  | inf, inf => inf
  | ninf, ninf => ninf
  | inf, ninf => nan
  | ninf, inf => nan
  | _, _ => nan

/-- Subtraction. -/
def jsub (a b : JsNum) : JsNum := jadd a (jneg b)

/-- Multiplication, with JavaScript special-value rules (`0 · ∞ = NaN`). -/
def jmul : JsNum → JsNum → JsNum
  | num a, num b => num (a * b)
  | num a, inf => if a > 0 then inf else if a < 0 then ninf else nan
  | num a, ninf => if a > 0 then ninf else if a < 0 then inf else nan
  | inf, num b => if b > 0 then inf else if b < 0 then ninf else nan
  | ninf, num b => if b > 0 then ninf else if b < 0 then inf else nan
  | inf, inf => inf
  | ninf, ninf => inf
  | inf, ninf => ninf
  | ninf, inf => ninf
  | _, _ => nan

/-- Division, with JavaScript special-value rules (signed infinity on division
by zero, `0/0 = NaN`, `∞/∞ = NaN`; the sign of `-0` is not modelled). -/
def jdiv : JsNum → JsNum → JsNum
  | num a, num b =>
      if b = 0 then (if a > 0 then inf else if a < 0 then ninf else nan)
      else num (a / b)
  | num _, inf => num 0
  | num _, ninf => num 0
  | inf, num b => if b ≥ 0 then inf else ninf
  | ninf, num b => if b ≥ 0 then ninf else inf
  | _, _ => nan

/-- Absolute value. -/
def jabs : JsNum → JsNum
  | num q => num |q|
  | inf => inf
  | ninf => inf
  | _ => nan

/-- Strict less-than as in JavaScript (`false` whenever `NaN` is involved). -/
def jlt : JsNum → JsNum → Bool
  | num a, num b => a < b
  | num _, inf => true
  | ninf, num _ => true
  | ninf, inf => true
  | _, _ => false

/-- Non-strict less-or-equal as in JavaScript. -/
def jle : JsNum → JsNum → Bool
  | num a, num b => a ≤ b
  | num _, inf => true
  | ninf, num _ => true
  | ninf, inf => true
  | inf, inf => true
  | ninf, ninf => true
  | _, _ => false

/-- `a > b` in JavaScript. -/
def jgt (a b : JsNum) : Bool := jlt b a

/-- `a ≥ b` in JavaScript. -/
def jge (a b : JsNum) : Bool := jle b a

/-- `Math.floor`. -/
def jfloor : JsNum → JsNum
  | num q => num ⌊q⌋
  | inf => inf
  | ninf => ninf
  | _ => nan

/-- `Math.round` (half-up, toward `+∞`). -/
def jround : JsNum → JsNum
  | num q => num ⌊q + 1/2⌋
  | inf => inf
  | ninf => ninf
  | _ => nan

end JsNum

open JsNum

/-- The abstract transcendental primitives of the JavaScript host, as
rational-valued functions.  `powf` is `Math.pow` restricted to a positive
base and a finite non-integral exponent; all other `Math.pow` cases are
computed exactly by `jsPow`. -/
structure JsOps where
  exp : ℚ → ℚ
  sqrt : ℚ → ℚ
  powf : ℚ → ℚ → ℚ
  sin : ℚ → ℚ
  log : ℚ → ℚ

/-- A concrete placeholder bundle of host primitives, used to instantiate
statements whose truth does not depend on the transcendental values. -/
def ops0 : JsOps where
  exp := fun _ => 1
  sqrt := fun _ => 1
  powf := fun b e => b ^ (max 0 ⌊e⌋).toNat
  sin := fun _ => 0
  log := fun _ => 0

/-- The exact rational value of the IEEE-754 double `Math.PI`. -/
def piJ : ℚ := 884279719003555 / 281474976710656

/-- `Math.exp` on `JsNum` (`exp(-∞) = 0`, `exp(∞) = ∞`, `NaN` propagates). -/
def jsExp (ops : JsOps) : JsNum → JsNum
  | num q => num (ops.exp q)
  | inf => inf
  | ninf => num 0
  | _ => nan

/-- `Math.sqrt` on `JsNum` (negative argument gives `NaN`). -/
def jsSqrt (ops : JsOps) : JsNum → JsNum
  | num q => if q < 0 then nan else num (ops.sqrt q)
  | inf => inf
  | _ => nan

/-- `Math.sin` on `JsNum` (infinite argument gives `NaN`). -/
def jsSin (ops : JsOps) : JsNum → JsNum
  | num q => num (ops.sin q)
  | _ => nan

/-- `Math.log` on `JsNum` (`log 0 = -∞`, negative argument gives `NaN`). -/
def jsLog (ops : JsOps) : JsNum → JsNum
  | num q => if q > 0 then num (ops.log q) else if q = 0 then ninf else nan
  | inf => inf
  | _ => nan

/-- Whether a rational is an integer. -/
def ratIsInt (q : ℚ) : Bool := q.den = 1

/-- `Math.pow` on `JsNum`, following the ECMAScript case analysis.  An
integral finite exponent on a finite base is computed exactly; a positive
finite base with a finite non-integral exponent defers to the abstract
`ops.powf`; a negative finite base with a non-integral exponent is `NaN`. -/
def jsPow (ops : JsOps) (x y : JsNum) : JsNum :=
  match y with
  | num b =>
      if b = 0 then num 1
      else
        match x with
        | num a =>
            if ratIsInt b then
              if a = 0 ∧ b < 0 then inf else num (a ^ b.num)
            else
              if a < 0 then nan
              else if a = 0 then (if b > 0 then num 0 else inf)
              else num (ops.powf a b)
        | inf => if b > 0 then inf else num 0
        | ninf =>
            if b > 0 then (if ratIsInt b ∧ b.num % 2 ≠ 0 then ninf else inf)
            else num 0
        | nan => nan
        | undef => nan
  | inf =>
      match x with
      | nan => nan
      | undef => nan
      | x' => if jabs x' = num 1 then nan else if jlt (jabs x') (num 1) then num 0 else inf
  | ninf =>
      match x with
      | nan => nan
      | undef => nan
      | x' => if jabs x' = num 1 then nan else if jlt (jabs x') (num 1) then inf else num 0
  | nan => nan
  | undef => nan

example : jsPow ops0 (num (-1)) (num (3/2)) = nan := by with_unfolding_all decide
example : jsPow ops0 (num (-1)) (num 2) = num 1 := by with_unfolding_all decide
example : jsPow ops0 (num 0) (num (-2)) = inf := by with_unfolding_all decide
example : jsPow ops0 nan (num 0) = num 1 := by with_unfolding_all decide

/-! ## Math.h helpers (helpers.js) -/

/-- `Math.h.isInt`: finite number strictly between `±2^53` whose floor equals
itself. -/
def isIntB : JsNum → Bool
  | num q => ratIsInt q && decide ((-9007199254740992 : ℚ) < q) && decide (q < 9007199254740992)
  | _ => false

/-- `Math.h.round(n, d)`: `Math.round(n·10^d)/10^d`. -/
def jsRound (n : JsNum) (d : ℕ) : JsNum :=
  jdiv (jround (jmul n (num (10 ^ d)))) (num (10 ^ d))

/-- The 9-term Lanczos coefficient array `p` of `Math.h.gamma`. -/
def pLanczos : List ℚ :=
  [0.99999999999980993, 676.5203681218851, -1259.1392167224028, 771.32342877765313,
   -176.61502916214059, 12.507343278686905, -0.13857109526572012, 9.9843695780195716e-6,
   1.5056327351493116e-7]

/-- The 15-term coefficient array `p_ln` of the log-space branch of
`Math.h.gamma`. -/
def pLnLanczos : List ℚ :=
  [0.99999999999999709182, 57.156235665862923517, -59.597960355475491248,
   14.136097974741747174, -0.49191381609762019978, 0.33994649984811888699e-4,
   0.46523628927048575665e-4, -0.98374475304879564677e-4, 0.15808870322491248884e-3,
   -0.21026444172410488319e-3, 0.21743961811521264320e-3, -0.16431810653676389022e-3,
   0.84418223983852743293e-4, -0.26190838401581408670e-4, 0.36899182659531622704e-5]

/-- The inner series `x = p[0] + Σ_{i=1}^{g+1} p[i]/(n+i)` of the direct
Lanczos branch of `Math.h.gamma` (the source loops `i` from `1` to `g+1 = 8`). -/
def lanczosX (n : ℚ) : ℚ :=
  (List.range 8).foldl (fun x i => x + (pLanczos.getD (i + 1) 0) / (n + (i + 1))) (pLanczos.getD 0 0)

/-- The inner series of `lngamma` (the source adds the 14 fraction terms to
`p_ln[0]`; addition of exact rationals is commutative, so the descending loop
order of the source is immaterial). -/
def lnX (n : ℚ) : ℚ :=
  (List.range 14).foldl (fun x i => x + (pLnLanczos.getD (i + 1) 0) / (n + (i + 1)))
    (pLnLanczos.getD 0 0)

/-- The inner `lngamma` of `Math.h.gamma` (log-space Lanczos with
`g_ln = 607/128`), used for arguments above 100.  In that branch every
`Math.log` argument is a positive rational, so `ops.log` is applied
directly. -/
def lngammaJ (ops : JsOps) (n : ℚ) : JsNum :=
  if n < 0 then nan
  else
    num (1/2 * ops.log (2 * piJ) + (n + 1/2) * ops.log (n + 607/128 + 1/2)
          - (n + 607/128 + 1/2) + ops.log (lnX n) - ops.log n)

/-- The direct 9-term Lanczos branch of `Math.h.gamma`
(`sqrt(2π)·t^(n+0.5)·e^(-t)·x` after `n -= 1`, `t = n + g + 0.5`, `g = 7`). -/
def gammaMid (ops : JsOps) (q : ℚ) : JsNum :=
  jmul
    (jmul (jmul (jsSqrt ops (num (2 * piJ))) (jsPow ops (num (q - 1 + 7 + 1/2)) (num (q - 1 + 1/2))))
      (jsExp ops (num (-(q - 1 + 7 + 1/2)))))
    (num (lanczosX (q - 1)))

/-- The branch of `Math.h.gamma` taken for arguments `≥ 0.5`: log-space above
100, direct Lanczos otherwise. -/
def gammaUpper (ops : JsOps) (q : ℚ) : JsNum :=
  if q > 100 then jsExp ops (lngammaJ ops q) else gammaMid ops q

/-- `Math.h.gamma`: reflection formula below `0.5`, otherwise `gammaUpper`.
A non-finite argument propagates to `NaN` (as the JavaScript arithmetic does
on each branch). -/
def gammaJ (ops : JsOps) : JsNum → JsNum
  | num q =>
      if q < 1/2 then
        jdiv (num piJ) (jmul (jsSin ops (num (piJ * q))) (gammaUpper ops (1 - q)))
      else gammaUpper ops q
  | _ => nan

/-- `Math.h.factorial`: exact descending integer product for non-negative
integers (`Nat.factorial` computes the same product), `gamma(n+1)`
otherwise. -/
def factorialJ (ops : JsOps) (n : JsNum) : JsNum :=
  if !isIntB n || jlt n 0 then gammaJ ops (jadd n 1)
  else
    match n with
    | num q => num (Nat.factorial q.num.toNat)
    | _ => nan

/-- `Math.h.choose`: `n!/((n-k)!·k!)` for integers `n > 0`, `k ≥ 0`.  The
source returns the boolean `false` on the domain failure; every consumer of
`choose` in the library uses it in arithmetic where `false` coerces to `0`,
which is how the failure value is modelled. -/
def chooseJ (ops : JsOps) (n k : JsNum) : JsNum :=
  if isIntB n && isIntB k && jgt n 0 && jge k 0 then
    jdiv (factorialJ ops n) (jmul (factorialJ ops (jsub n k)) (factorialJ ops k))
  else num 0

example : factorialJ ops0 (num 5) = num 120 := by with_unfolding_all decide
example : chooseJ ops0 (num 5) (num 2) = num 10 := by with_unfolding_all decide
example : chooseJ ops0 (num 5) (num (5/2)) = num 0 := by with_unfolding_all decide

/-- One endpoint of a bounds object. -/
structure Bnd where
  value : JsNum
  closed : Bool
deriving DecidableEq, Repr

/-- A `{lower, upper}` bounds object. -/
structure BoundsR where
  lower : Bnd
  upper : Bnd
deriving DecidableEq, Repr

/-- `Math.h.inBounds`: the four-way case split of the source on the two
`closed` flags. -/
def inBoundsB (v : JsNum) (b : BoundsR) : Bool :=
  if b.lower.closed && b.upper.closed then jge v b.lower.value && jle v b.upper.value
  else if b.lower.closed && !b.upper.closed then jge v b.lower.value && jlt v b.upper.value
  else if !b.lower.closed && b.upper.closed then jgt v b.lower.value && jle v b.upper.value
  else jgt v b.lower.value && jlt v b.upper.value

/-- Loop body of the `inf_sum` branch of `Math.h.sum`, with explicit fuel.
State: current index `i`, running total `s1`.  Mirrors the source exactly:
the two-term NaN probe, the one-step-ahead convergence test (the source
recomputes `f(i+1)` for `s2`), the `i > max` cap check after it, and `i += 1`. -/
def infSumAux (f : JsNum → JsNum) (b tol maxT : JsNum) : ℕ → JsNum → JsNum → Option JsNum
  | 0, _, _ => none
  | fuel+1, i, s1 =>
    if jle i b then
      let v1 := f i
      let v2 := f (jadd i (num 1))
      if !v1.isNaNb && !v2.isNaNb then
        let s1' := jadd s1 v1
        let s2 := jadd s1' (f (jadd i (num 1)))
        if jlt (jabs (jsub s1' s2)) tol then some s1'
        else if jgt i maxT then some undef
        else infSumAux f b tol maxT fuel (jadd i (num 1)) s1'
      else
        if jgt i maxT then some undef
        else infSumAux f b tol maxT fuel (jadd i (num 1)) s1
    else some s1

/-- Loop body of the `fin_sum` branch of `Math.h.sum`, with explicit fuel:
accumulate `f(i)` for `i = a, a+1, …` while `i ≤ b`, skipping NaN terms. -/
def finSumAux (f : JsNum → JsNum) (b : JsNum) : ℕ → JsNum → JsNum → Option JsNum
  | 0, _, _ => none
  | fuel+1, i, s1 =>
    if jle i b then
      finSumAux f b fuel (jadd i (num 1)) (if !(f i).isNaNb then jadd s1 (f i) else s1)
    else some s1

/-- Default tolerance `1e-12` when the `tol` argument is omitted
(`undefined`). -/
def resolvedTol (tol : JsNum) : JsNum := if tol = undef then num (1/1000000000000) else tol

/-- Default term cap `1e6` when the `max` argument is omitted (`undefined`). -/
def resolvedMax (maxT : JsNum) : JsNum := if maxT = undef then num 1000000 else maxT

/-- `Math.h.sum` with explicit fuel: dispatch on `Math.abs(a) === Infinity ||
Math.abs(b) === Infinity` to `inf_sum` (with defaulted `tol`/`max`) or
`fin_sum`; both start at `i = a`, `s1 = 0`. -/
def sumFuel (fuel : ℕ) (f : JsNum → JsNum) (a b tol maxT : JsNum) : Option JsNum :=
  if jabs a = inf ∨ jabs b = inf then
    infSumAux f b (resolvedTol tol) (resolvedMax maxT) fuel a (num 0)
  else finSumAux f b fuel a (num 0)

/-- Fuel that provably suffices for the cases of `Math.h.sum` that terminate:
a finite lower bound against the cap in `inf_sum`, and finite bounds in
`fin_sum`.  (For a lower bound of `-Infinity`, or for an infinite `max`, the
source loop can genuinely run forever, and no fuel is adequate.) -/
def sumDefaultFuel (a b maxT : JsNum) : ℕ :=
  if jabs a = inf ∨ jabs b = inf then
    match a, resolvedMax maxT with
    | num aq, num m => (⌈m⌉ - ⌊aq⌋).toNat + 3
    | _, _ => 2
  else
    match a, b with
    | num aq, num bq => (⌈bq⌉ - ⌊aq⌋).toNat + 2
    | _, _ => 1

/-- `Math.h.sum` with the default fuel. -/
def hsum (f : JsNum → JsNum) (a b tol maxT : JsNum) : Option JsNum :=
  sumFuel (sumDefaultFuel a b maxT) f a b tol maxT

/-- `Math.h.s_sum`: fold a callback over an array, accumulating into `s`. -/
def sSumJ {α : Type} (array : List α) (callback : α → JsNum) : JsNum :=
  array.foldl (fun s el => jadd s (callback el)) (num 0)

/-- `Math.h.integral`: single-panel Simpson rule
`(b-a)/6 · (f(a) + 4·f((a+b)/2) + f(b))`. -/
def jsIntegral (f : JsNum → JsNum) (a b : JsNum) : JsNum :=
  jmul (jdiv (jsub b a) (num 6))
    (jadd (jadd (f a) (jmul (num 4) (f (jdiv (jadd a b) (num 2))))) (f b))

/-- Whether `Math.abs` of the value is `Infinity` (the `!== Infinity` guards
of `Math.h.derivative`). -/
def isInfiniteB : JsNum → Bool
  | inf => true
  | ninf => true
  | _ => false

/-- The binomial-weight central finite-difference stencil `f1` of
`Math.h.derivative`:
`sum(i ↦ (-1)^i·choose(o,i)·f(x+(o/2-i)·h), 0, o) / h^o`.
The inner sum has lower bound `0`, for which the default fuel of `hsum`
always suffices, so the `getD` default is unreachable. -/
def stencil (ops : JsOps) (f : JsNum → JsNum) (o x h : JsNum) : JsNum :=
  jdiv
    ((hsum
        (fun i =>
          jmul (jmul (jsPow ops (num (-1)) i) (chooseJ ops o i))
            (f (jadd x (jmul (jsub (jdiv o (num 2)) i) h))))
        (num 0) o undef undef).getD nan)
    (jsPow ops h o)

/-- Loop of `Math.h.derivative` with explicit fuel.  State: iteration count
`i`, current step `h`, previous estimate `v[i-1]`, previous difference
`d[i-1]` (`none` while `d[i-1]` is still unassigned, as at `i = 1`, where the
source compares against the `undefined` array slot and the comparison is
false).  Each iteration first halves `h`, then evaluates the stencil; the
loop returns the previous estimate `v[i-1]` at the first `i ≥ 2` where both
estimates are finite and `d[i] ≥ d[i-1]`, and `undefined` if `i` passes
99999. -/
def derivAux (ops : JsOps) (f : JsNum → JsNum) (o x : JsNum) :
    ℕ → ℕ → JsNum → JsNum → Option JsNum → Option JsNum
  | 0, _, _, _, _ => none
  | fuel+1, i, h, prevV, prevD =>
    if i ≤ 99999 then
      let h' := jsub h (jdiv h (num 2))
      let v := stencil ops f o x h'
      if i ≠ 0 then
        let d := jabs (jsub v prevV)
        if !v.isNaNb && !prevV.isNaNb && !isInfiniteB v && !isInfiniteB prevV &&
            (match prevD with | some pd => jge d pd | none => false) then
          some prevV
        else derivAux ops f o x fuel (i+1) h' v (some d)
      else derivAux ops f o x fuel (i+1) h' v none
    else some undef

/-- `Math.h.derivative`: run the refinement loop from `i = 0`, `h = 0.01`,
with fuel `100001` (the loop bound `i ≤ 99999` makes this adequate; falling
out of the loop returns `undefined`, which is also the fuel-exhaustion
default, so the `getD` agrees with the source on every path). -/
def derivativeJ (ops : JsOps) (f : JsNum → JsNum) (o x : JsNum) : JsNum :=
  (derivAux ops f o x 100001 0 (num (1/100)) nan none).getD undef

/-! ## Math.p moment extractor (probability.js) -/

/-- `Math.p.moments.mean`: `round(derivative(f, 1, 0), 3)`. -/
def momentsMeanJ (ops : JsOps) (f : JsNum → JsNum) : JsNum :=
  jsRound (derivativeJ ops f (num 1) (num 0)) 3

/-- `Math.p.moments.variance`:
`round(derivative(f,2,0) - pow(derivative(f,1,0), 2), 3)`. -/
def momentsVarianceJ (ops : JsOps) (f : JsNum → JsNum) : JsNum :=
  jsRound (jsub (derivativeJ ops f (num 2) (num 0))
    (jsPow ops (derivativeJ ops f (num 1) (num 0)) (num 2))) 3

/-- `Math.p.moments.skewness`:
`round((d3 - 3·d1·d2 + 2·d1³) / pow(d2 - d1², 1.5), 3)` where `dk` is
`derivative(f, k, 0)`. -/
def momentsSkewnessJ (ops : JsOps) (f : JsNum → JsNum) : JsNum :=
  jsRound
    (jdiv
      (jadd
        (jsub (derivativeJ ops f (num 3) (num 0))
          (jmul (jmul (num 3) (derivativeJ ops f (num 1) (num 0)))
            (derivativeJ ops f (num 2) (num 0))))
        (jmul (num 2) (jsPow ops (derivativeJ ops f (num 1) (num 0)) (num 3))))
      (jsPow ops
        (jsub (derivativeJ ops f (num 2) (num 0))
          (jsPow ops (derivativeJ ops f (num 1) (num 0)) (num 2)))
        (num (3/2)))) 3

/-- `Math.p.moments.kurtosis`:
`round((d4 - 4·d1·d3 + 6·d2·d1² - 3·d1⁴) / pow(d2 - d1², 2) - 3, 3)`. -/
def momentsKurtosisJ (ops : JsOps) (f : JsNum → JsNum) : JsNum :=
  jsRound
    (jsub
      (jdiv
        (jsub
          (jadd
            (jsub (derivativeJ ops f (num 4) (num 0))
              (jmul (jmul (num 4) (derivativeJ ops f (num 1) (num 0)))
                (derivativeJ ops f (num 3) (num 0))))
            (jmul (jmul (num 6) (derivativeJ ops f (num 2) (num 0)))
              (jsPow ops (derivativeJ ops f (num 1) (num 0)) (num 2))))
          (jmul (num 3) (jsPow ops (derivativeJ ops f (num 1) (num 0)) (num 4))))
        (jsPow ops
          (jsub (derivativeJ ops f (num 2) (num 0))
            (jsPow ops (derivativeJ ops f (num 1) (num 0)) (num 2)))
          (num 2)))
      (num 3)) 3

example : derivativeJ ops0 (fun t => t) (num 1) (num 0) = num 1 := by with_unfolding_all decide
example : derivativeJ ops0 (fun t => t) (num 2) (num 0) = num 0 := by with_unfolding_all decide
example : derivativeJ ops0 (fun t => t) (num 3) (num 0) = num 0 := by with_unfolding_all decide
example : derivativeJ ops0 (fun t => t) (num 4) (num 0) = num 0 := by with_unfolding_all decide
example : momentsVarianceJ ops0 (fun t => t) = num (-1) := by with_unfolding_all decide
example : momentsSkewnessJ ops0 (fun t => t) = nan := by with_unfolding_all decide
example : momentsKurtosisJ ops0 (fun t => t) = num (-6) := by with_unfolding_all decide

/-! ## Math.p density sampler and distribution catalog entries -/

/-- One `{x, y}` point of a sample series. -/
structure SP where
  x : JsNum
  y : JsNum
deriving DecidableEq, Repr

/-- A moments object (`mgf`-derived or hard-coded); missing members are
`undefined`. -/
structure MomentsR where
  mean : JsNum := undef
  variance : JsNum := undef
  skewness : JsNum := undef
  kurtosis : JsNum := undef
deriving DecidableEq, Repr

/-- A distribution parameter object; a field the caller does not supply is
`undefined`, exactly as property access behaves in JavaScript. -/
structure ParamsR where
  a : JsNum := undef
  b : JsNum := undef
  p : JsNum := undef
  sigma : JsNum := undef
  mu : JsNum := undef
  beta : JsNum := undef
  gamma : JsNum := undef
  x0 : JsNum := undef
  lambda : JsNum := undef
  n : JsNum := undef
deriving DecidableEq, Repr

/-- The part of a `Math.p.distribution` catalog entry that the density
sampler reads. -/
structure DistR where
  discrete : Bool
  bounds : ParamsR → BoundsR
  pdf : ParamsR → JsNum → JsNum

/-- The walk of `Math.p.generatePDF`, with explicit fuel.  State: loop
variable `i`, counter `v` of NaN/non-positive evaluations, accumulator of
pushed points (in push order; reversed on every exit).  Mirrors the source:
guard `|start - i| ≤ 10·variance || i < 99999`; evaluate the pdf at
`start - i`; bump `v` on NaN or `≤ 0`; break on `v > 10`, on `i/inc` NaN, or
on a non-NaN value in `[0, 1e-5]`; push when in bounds and non-NaN; then
`i += inc`. -/
def genPDFAux (d : DistR) (params : ParamsR) (m : MomentsR) (inc start : JsNum) :
    ℕ → JsNum → ℕ → List SP → Option (List SP)
  | 0, _, _, _ => none
  | fuel+1, i, v, acc =>
    if jle (jabs (jsub start i)) (jmul (num 10) m.variance) || jlt i (num 99999) then
      let value := d.pdf params (jsub start i)
      let v1 := if value.isNaNb || jle value (num 0) then v + 1 else v
      if decide (10 < v1) || (jdiv i inc).isNaNb ||
          (!value.isNaNb && (jge value (num 0) && jle value (num (1/100000)))) then
        some acc.reverse
      else
        genPDFAux d params m inc start fuel (jadd i inc) v1
          (if inBoundsB (jsub start i) (d.bounds params) && !value.isNaNb then
            ⟨jsub start i, value⟩ :: acc else acc)
    else some acc.reverse

/-- The starting point of the walk: `mean - inc` for a negative increment and
`mean` otherwise, floored for a discrete distribution, and overridden to `0`
when the mean is NaN or exceeds `99999` in magnitude. -/
def genPDFstart (d : DistR) (m : MomentsR) (inc : JsNum) : JsNum :=
  let s0 := if jlt inc (num 0) then jsub m.mean inc else m.mean
  let s1 := if d.discrete then jfloor s0 else s0
  if m.mean.isNaNb || jgt (jabs m.mean) (num 99999) then num 0 else s1

/-- `Math.p.generatePDF` with explicit fuel. -/
def genPDF (d : DistR) (params : ParamsR) (m : MomentsR) (inc : JsNum) (fuel : ℕ) :
    Option (List SP) :=
  genPDFAux d params m inc (genPDFstart d m inc) fuel (num 0) 0 []

/-- `Math.p.generateCDF`: running sum of `y`, each output `y` scaled by
`inc`. -/
def generateCDFJ (pdf : List SP) (inc : JsNum) : List SP :=
  (pdf.foldl (fun (st : JsNum × List SP) p =>
    (jadd st.1 p.y, ⟨p.x, jmul (jadd st.1 p.y) inc⟩ :: st.2)) (num 0, [])).2.reverse

/-- Rank used to linearise `JsNum` for the sort comparator (`-∞`, finite,
`+∞`, then the incomparable values; only finite values occur in the samples
`buildDF` sorts, where this order coincides with the JavaScript
comparator). -/
def numRank : JsNum → ℕ
  | ninf => 0
  | num _ => 1
  | inf => 2
  | nan => 3
  | undef => 4

/-- The finite value of a `JsNum`, defaulting to `0`. -/
def keyQ : JsNum → ℚ
  | num q => q
  | _ => 0

/-- The sort order on sample points used to model
`Array.prototype.sort` with the ascending-`x` comparator of `buildDF`. -/
def spLe (p q : SP) : Prop :=
  numRank p.x < numRank q.x ∨ (numRank p.x = numRank q.x ∧ keyQ p.x ≤ keyQ q.x)

instance : DecidableRel spLe := fun p q => by unfold spLe; infer_instance

instance : IsTotal SP spLe := by
  constructor
  intro p q
  rcases Nat.lt_trichotomy (numRank p.x) (numRank q.x) with h | h | h
  · exact Or.inl (Or.inl h)
  · rcases le_total (keyQ p.x) (keyQ q.x) with h2 | h2
    · exact Or.inl (Or.inr ⟨h, h2⟩)
    · exact Or.inr (Or.inr ⟨h.symm, h2⟩)
  · exact Or.inr (Or.inl h)

instance : IsTrans SP spLe := by
  constructor
  intro p q r hpq hqr
  rcases hpq with h1 | ⟨e1, l1⟩
  · rcases hqr with h2 | ⟨e2, _⟩
    · exact Or.inl (h1.trans h2)
    · exact Or.inl (e2 ▸ h1)
  · rcases hqr with h2 | ⟨e2, l2⟩
    · exact Or.inl (e1 ▸ h2)
    · exact Or.inr ⟨e1.trans e2, l1.trans l2⟩

/-- The ascending-`x` sort of `Math.p.buildDF`, modelled as insertion sort
(the ECMAScript sort produces a permutation sorted by the comparator; which
sorted permutation is immaterial to the claims). -/
def sortPDF (l : List SP) : List SP := List.insertionSort spLe l

/-- The increment of `Math.p.buildDF`: `1` for a discrete distribution,
`sqrt(variance)/100` otherwise, replaced by `0.01` when NaN or larger than
`99999` in magnitude. -/
def buildDFinc (ops : JsOps) (d : DistR) (m : MomentsR) : JsNum :=
  let inc0 := if d.discrete then num 1 else jdiv (jsSqrt ops m.variance) (num 100)
  if inc0.isNaNb || jgt (jabs inc0) (num 99999) then num (1/100) else inc0

/-- The `{pdf, cdf}` result of `Math.p.buildDF`. -/
structure DFR where
  pdf : List SP
  cdf : List SP
deriving DecidableEq, Repr

/-- `Math.p.buildDF`: walk in both directions (`-inc` first, then `inc`),
concatenate, sort ascending by `x`, and derive the cdf. -/
def buildDF (ops : JsOps) (d : DistR) (params : ParamsR) (m : MomentsR) (fuel : ℕ) :
    Option DFR :=
  let inc := buildDFinc ops d m
  match genPDF d params m (jneg inc) fuel, genPDF d params m inc fuel with
  | some l1, some l2 =>
      let pdfL := sortPDF (l1 ++ l2)
      some ⟨pdfL, generateCDFJ pdfL inc⟩
  | _, _ => none

/-- The `cauchy` catalog entry: open infinite bounds, pdf
`1/(π·γ·(1+((x-x0)/γ)²))`. -/
def cauchyDistr (ops : JsOps) : DistR where
  discrete := false
  bounds := fun _ => ⟨⟨ninf, false⟩, ⟨inf, false⟩⟩
  pdf := fun params x =>
    jdiv (num 1)
      (jmul (jmul (num piJ) params.gamma)
        (jadd (num 1) (jsPow ops (jdiv (jsub x params.x0) params.gamma) (num 2))))

/-- The `uniform` catalog entry: closed infinite bounds (as declared by the
source), pdf `1/(b-a)` on `[a, b]` and `0` elsewhere. -/
def uniformDistr : DistR where
  discrete := false
  bounds := fun _ => ⟨⟨ninf, true⟩, ⟨inf, true⟩⟩
  pdf := fun params x =>
    if jge x params.a && jle x params.b then jdiv (num 1) (jsub params.b params.a) else num 0

/-- The `geometric` catalog entry: discrete, bounds `[0, ∞]` (upper bound
declared closed by the source), pmf `(1-p)^k·p`. -/
def geometricDistr (ops : JsOps) : DistR where
  discrete := true
  bounds := fun _ => ⟨⟨num 0, true⟩, ⟨inf, true⟩⟩
  pdf := fun params k => jmul (jsPow ops (jsub (num 1) params.p) k) params.p

/-- The `rayleigh` catalog pdf: `x/σ² · exp(-x²/(2σ²))`. -/
def rayleighPdf (ops : JsOps) (params : ParamsR) (x : JsNum) : JsNum :=
  jmul (jdiv x (jsPow ops params.sigma (num 2)))
    (jsExp ops (jneg (jdiv (jsPow ops x (num 2)) (jmul (num 2) (jsPow ops params.sigma (num 2))))))

/-- The `gumbel` catalog cdf exactly as written in the source:
`integral(Math.p.distribution.rayleigh.pdf(params), 0, x)`. -/
def gumbelCdf (ops : JsOps) (params : ParamsR) : JsNum → JsNum :=
  fun x => jsIntegral (rayleighPdf ops params) (num 0) x

/-- The `gumbel` catalog pdf (`1/β·e^{-(z+e^{-z})}`, `z = (x-μ)/β`), for
reference alongside the cdf. -/
def gumbelPdf (ops : JsOps) (params : ParamsR) (x : JsNum) : JsNum :=
  jmul (jdiv (num 1) params.beta)
    (jsExp ops (jneg (jadd (jdiv (jsub x params.mu) params.beta)
      (jsExp ops (jneg (jdiv (jsub x params.mu) params.beta))))))

/-! ## The WELL19937c generator of Math.h.random -/

/-- The modulus `2^32` of the generator's 32-bit words. -/
def M32 : ℕ := 4294967296

/-- Left shift truncated to 32 bits (JavaScript `<<` as a bit pattern). -/
def shl32 (x k : ℕ) : ℕ := (x <<< k) % M32

/-- One step of the Numerical-Recipes linear congruential expansion used by
`seedArray`. -/
def lcgNext (x : ℕ) : ℕ := (1664525 * x + 1013904223) % M32

/-- One extension step of `seedArray`: append
`(1664525·v[i - array.length] + 1013904223) >>> 0` at position `i = v.length`. -/
def seedStep (len : ℕ) (v : List ℕ) : List ℕ :=
  v ++ [lcgNext (v.getD (v.length - len) 0)]

/-- `seedArray`: keep the first 624 provided words and extend to 624 words by
the LCG recurrence. -/
def seedArrayW (array : List ℕ) : List ℕ :=
  (seedStep array.length)^[624 - array.length] (array.take 624)

/-- `seed(value)`, i.e. `seedArray([value])`. -/
def seedW (value : ℕ) : List ℕ := seedArrayW [value]

/-- The generator state: the 624-word array and the circular index. -/
structure WState where
  v : List ℕ
  index : ℕ
deriving DecidableEq, Repr

/-- A fresh instance seeded with a single 32-bit value (index starts at 0). -/
def mkW (seed : ℕ) : WState := ⟨seedW seed, 0⟩

/-- One draw of the inner `random()`: the WELL19937c recurrence with the
fixed parameters `r = 624`, `M1 = 70`, `M2 = 179`, `M3 = 449`, the in-place
state updates, and the Matsumoto–Kurita tempering; returns the output in
`[0,1)` together with the updated state.  All JavaScript bitwise operations
are modelled on 32-bit patterns (`ℕ` mod `2^32`), which agrees with the
source because every use of a state word is bitwise. -/
def drawW (st : WState) : ℚ × WState :=
  let r := 624
  let iRm1 := (st.index + (r - 1)) % r
  let iRm2 := (st.index + (r - 2)) % r
  let v0 := st.v.getD st.index 0
  let vM1 := st.v.getD ((st.index + 70) % r) 0
  let vM2 := st.v.getD ((st.index + 179) % r) 0
  let vM3 := st.v.getD ((st.index + 449) % r) 0
  let z0 := (0x80000000 &&& st.v.getD iRm1 0) ^^^ (0x7FFFFFFF &&& st.v.getD iRm2 0)
  let z1 := (v0 ^^^ shl32 v0 25) ^^^ (vM1 ^^^ (vM1 >>> 27))
  let z2 := (vM2 >>> 9) ^^^ (vM3 ^^^ (vM3 >>> 1))
  let z3 := z1 ^^^ z2
  let z4 := ((z0 ^^^ (z1 ^^^ shl32 z1 9)) ^^^ (z2 ^^^ shl32 z2 21)) ^^^ (z3 ^^^ (z3 >>> 21))
  let v1 := st.v.set st.index z3
  let v2 := v1.set iRm1 z4
  let v3 := v2.set iRm2 (v2.getD iRm2 0 &&& 0x80000000)
  let t1 := z4 ^^^ (shl32 z4 7 &&& 0xe46e1700)
  let t2 := t1 ^^^ (shl32 t1 15 &&& 0x9b868000)
  ((t2 : ℚ) / (M32 : ℚ), ⟨v3, iRm1⟩)

/-- The list of the first `n` draws from a state. -/
def drawListW (st : WState) : ℕ → List ℚ
  | 0 => []
  | n+1 => (drawW st).1 :: drawListW (drawW st).2 n

/-- The first `n` outputs of an instance seeded with a given 32-bit value. -/
def drawSeqW (seed : ℕ) (n : ℕ) : List ℚ := drawListW (mkW seed) n

/-! ## Incomplete gamma functions -/

/-- The auxiliary series `sum(k ↦ x^k / gamma(a+k+1), 0, ∞)` shared by
`Math.h.ligamma` and `Math.h.uigamma`. -/
def ligammaSeries (ops : JsOps) (a x : JsNum) : Option JsNum :=
  hsum (fun k => jdiv (jsPow ops x k) (gammaJ ops (jadd (jadd a k) (num 1))))
    (num 0) inf undef undef

/-- `Math.h.ligamma`: `pow(x,a)·gamma(a)·exp(-x)·S` with `S` the auxiliary
series (`none` only if the series loop itself never returns). -/
def ligammaJ (ops : JsOps) (a x : JsNum) : Option JsNum :=
  (ligammaSeries ops a x).map (fun s =>
    jmul (jmul (jmul (jsPow ops x a) (gammaJ ops a)) (jsExp ops (jneg x))) s)

/-- `Math.h.uigamma`: `gamma(a)·(1 - pow(z,a)·exp(-z)·S)`. -/
def uigammaJ (ops : JsOps) (a z : JsNum) : Option JsNum :=
  (ligammaSeries ops a z).map (fun s =>
    jmul (gammaJ ops a) (jsub (num 1) (jmul (jmul (jsPow ops z a) (jsExp ops (jneg z))) s)))

/-! ## The sample statistics entry points (Math.p.mean / Math.p.variance) -/

/-- The member names defined on the `Math.h` helper namespace by
helpers.js. -/
def mathHNames : List String :=
  ["EM", "csc", "sec", "cot", "sinh", "cosh", "tanh", "csch", "sech", "coth",
   "random", "isInt", "inBounds", "round", "sgn", "factorial", "choose",
   "triangular", "erf", "harmonic", "polylogarithm", "zeta", "beta", "gamma",
   "ligamma", "uigamma", "digamma", "besselI", "sum", "s_sum", "product_sum",
   "derivative", "integral", "sq_size", "arr_dump", "parse_func"]

/-- Property lookup on `Math.h`: whether a member of that name is defined. -/
def hHas (s : String) : Bool := mathHNames.contains s

/-- The JavaScript exception raised by calling a non-function value. -/
inductive JsErr where
  | typeError
deriving DecidableEq, Repr

/-- `Math.p.mean(array)`: the call `Math.h.sSum(array, …)` throws a
`TypeError` unless `Math.h` defines a member `sSum`; otherwise it would
return `1/array.length · Σ el.y`. -/
def pMean (array : List SP) : Except JsErr JsNum :=
  if hHas "sSum" then
    .ok (jmul (jdiv (num 1) (num array.length)) (sSumJ array (fun el => el.y)))
  else .error .typeError

/-- `Math.p.variance(array)`: first computes `Math.p.mean(array)` (whose
exception propagates), then calls `Math.h.sSum` itself. -/
def pVariance (ops : JsOps) (array : List SP) : Except JsErr JsNum :=
  match pMean array with
  | .error e => .error e
  | .ok m =>
      if hHas "sSum" then
        .ok (jmul (jdiv (num 1) (num ((array.length : ℚ) - 1)))
          (sSumJ array (fun el => jsPow ops (jsub el.y m) (num 2))))
      else .error .typeError

/-! ## Basic computation lemmas for the JsNum arithmetic -/

theorem jadd_num (a b : ℚ) : jadd (num a) (num b) = num (a + b) := rfl

theorem jneg_num (a : ℚ) : jneg (num a) = num (-a) := rfl

theorem jsub_num (a b : ℚ) : jsub (num a) (num b) = num (a - b) := by
  simp [jsub, jadd, jneg, sub_eq_add_neg]

theorem jmul_num (a b : ℚ) : jmul (num a) (num b) = num (a * b) := rfl

theorem jdiv_num (a b : ℚ) (h : b ≠ 0) : jdiv (num a) (num b) = num (a / b) := by
  simp [jdiv, h]

theorem jabs_num (a : ℚ) : jabs (num a) = num |a| := rfl

theorem jle_num (a b : ℚ) : jle (num a) (num b) = decide (a ≤ b) := rfl

theorem jlt_num (a b : ℚ) : jlt (num a) (num b) = decide (a < b) := rfl

/-! ## Claim C1 -/

/-- Claim C1 (code_bug evidence): for the moment-generating function
`f(t) = t`, the derivative loop computes the raw derivatives exactly
(`1, 0, 0, 0` — the stencil is exact on a linear function at every step
size), so the numerically computed variance is `0 - 1² = -1 ≤ 0`; yet
`Math.p.moments.skewness` returns `NaN` (from `pow(-1, 1.5)`), not the
`undefined` sentinel, and `Math.p.moments.kurtosis` returns `-6`, a plain
number.  The spec requires both to be reported `undefined` whenever the
numerically computed variance is `≤ 0`; the code has no such check and lets
`NaN` (or a meaningless number) escape.  The result is independent of the
host's transcendental primitives. -/
theorem C1_degenerate_variance_not_detected (ops : JsOps) :
    momentsVarianceJ ops (fun t => t) = num (-1) ∧
    momentsSkewnessJ ops (fun t => t) = nan ∧
    momentsKurtosisJ ops (fun t => t) = num (-6) ∧
    momentsSkewnessJ ops (fun t => t) ≠ undef ∧
    momentsKurtosisJ ops (fun t => t) ≠ undef := by
  refine ⟨?_, ?_, ?_, ?_, ?_⟩
  · with_unfolding_all rfl
  · with_unfolding_all rfl
  · with_unfolding_all rfl
  · intro h
    have : momentsSkewnessJ ops (fun t => t) = nan := by with_unfolding_all rfl
    rw [this] at h
    exact absurd h (by simp)
  · intro h
    have : momentsKurtosisJ ops (fun t => t) = num (-6) := by with_unfolding_all rfl
    rw [this] at h
    exact absurd h (by simp)

/-! ## Claim C3 -/

/-- Claim C3: for every parameter object and every argument `x`, the Gumbel
cdf of the source is literally `Math.h.integral` applied to the Rayleigh pdf
closed over the same parameter object, on `[0, x]` — the copy-paste defect
the spec records. -/
theorem C3_gumbel_cdf_is_rayleigh_integral (ops : JsOps) (params : ParamsR) (x : JsNum) :
    gumbelCdf ops params x = jsIntegral (rayleighPdf ops params) (num 0) x := rfl

/-! ## Claim C5 -/

/-- Claim C5: the generator's output sequence is a function of the seed
alone.  Seeding deterministically replaces the whole state (`seedArrayW`
keeps the supplied words and extends them by the fixed LCG recurrence), and
each draw reads and writes only the instance's own state, so two instances
created from equal 32-bit seeds produce equal sequences of `N` draws for
every `N`. -/
theorem C5_prng_determinism (s1 s2 : ℕ) (n : ℕ) (h : s1 = s2) :
    drawSeqW s1 n = drawSeqW s2 n := by rw [h]

/-- Witness for C5 at seed `123456789` and `N = 4`. -/
theorem C5_prng_determinism_witness : drawSeqW 123456789 4 = drawSeqW 123456789 4 :=
  C5_prng_determinism 123456789 123456789 4 rfl

/-! ## Claim C10 -/

/-- Claim C10: `Math.p.mean` and `Math.p.variance` call `Math.h.sSum`, but
the helper namespace defines `s_sum` and never `sSum`; calling the
`undefined` member throws a `TypeError` on every input array, so both
sample-statistics entry points are unusable. -/
theorem C10_sample_stats_throw (ops : JsOps) (array : List SP) :
    pMean array = Except.error JsErr.typeError ∧
    pVariance ops array = Except.error JsErr.typeError ∧
    hHas "sSum" = false ∧ hHas "s_sum" = true := by
  have hno : hHas "sSum" = false := by with_unfolding_all decide
  have hyes : hHas "s_sum" = true := by with_unfolding_all decide
  refine ⟨?_, ?_, hno, hyes⟩
  · simp [pMean, hno]
  · simp [pVariance, pMean, hno]

/-! ## Claim C7 -/

/-- One-step unfolding of the `inf_sum` loop. -/
theorem infSumAux_step (f : JsNum → JsNum) (b tol maxT : JsNum) (fuel : ℕ) (i s1 : JsNum) :
    infSumAux f b tol maxT (fuel+1) i s1 =
      if jle i b then
        if (!(f i).isNaNb && !(f (jadd i (num 1))).isNaNb) = true then
          if jlt (jabs (jsub (jadd s1 (f i)) (jadd (jadd s1 (f i)) (f (jadd i (num 1)))))) tol then
            some (jadd s1 (f i))
          else if jgt i maxT then some undef
          else infSumAux f b tol maxT fuel (jadd i (num 1)) (jadd s1 (f i))
        else
          if jgt i maxT then some undef
          else infSumAux f b tol maxT fuel (jadd i (num 1)) s1
      else some s1 := rfl

/-- The running total `s1` of the `inf_sum` loop after `k` iterations from
index `a`: a term is accumulated only when neither it nor its one-step-ahead
probe is NaN (exactly the guard of the source). -/
def infS1 (f : JsNum → JsNum) (a : ℚ) : ℕ → JsNum
  | 0 => num 0
  | k+1 =>
      if (!(f (num (a + k))).isNaNb && !(f (num (a + k + 1))).isNaNb) = true then
        jadd (infS1 f a k) (f (num (a + k)))
      else infS1 f a k

/-- Whether the `inf_sum` loop would break (converge) at iteration `k`: both
probes non-NaN and the one-step-ahead difference below `tol`. -/
def infBreaks (f : JsNum → JsNum) (a : ℚ) (tol : JsNum) (k : ℕ) : Bool :=
  !(f (num (a + k))).isNaNb && !(f (num (a + k + 1))).isNaNb &&
    jlt (jabs (jsub (jadd (infS1 f a k) (f (num (a + k))))
      (jadd (jadd (infS1 f a k) (f (num (a + k)))) (f (num (a + k + 1)))))) tol

theorem infSumAux_cap (f : JsNum → JsNum) (tol : JsNum) (m a : ℚ)
    (hbr : ∀ j : ℕ, infBreaks f a tol j = false) :
    ∀ (fuel k : ℕ), m < a + k + fuel →
      infSumAux f inf tol (num m) (fuel + 1) (num (a + k)) (infS1 f a k) = some undef := by
  have hone : ∀ k : ℕ, jadd (num (a + (k:ℚ))) (num 1) = num (a + k + 1) := fun k => rfl
  have hle : ∀ k : ℕ, jle (num (a + (k:ℚ))) inf = true := fun _ => rfl
  have hnoconv : ∀ k : ℕ, (!(f (num (a + k))).isNaNb && !(f (num (a + k + 1))).isNaNb) = true →
      jlt (jabs (jsub (jadd (infS1 f a k) (f (num (a + k))))
        (jadd (jadd (infS1 f a k) (f (num (a + k)))) (f (num (a + k + 1)))))) tol = false := by
    intro k hn
    have h := hbr k
    unfold infBreaks at h
    rcases Bool.and_eq_false_iff.mp h with h1 | h1
    · rw [hn] at h1; exact absurd h1 (by simp)
    · exact h1
  intro fuel
  induction fuel with
  | zero =>
      intro k hk
      have hgt : jgt (num (a + (k : ℚ))) (num m) = true := by
        simp only [jgt, jlt_num, decide_eq_true_eq]; simpa using hk
      rw [infSumAux_step, hone k]
      by_cases hn : (!(f (num (a + k))).isNaNb && !(f (num (a + k + 1))).isNaNb) = true
      · rw [if_pos (hle k), if_pos hn, if_neg (by rw [hnoconv k hn]; simp), if_pos hgt]
      · rw [if_pos (hle k), if_neg hn, if_pos hgt]
  | succ fuel ih =>
      intro k hk
      rw [infSumAux_step, hone k]
      by_cases hm : m < a + k
      · have hgt : jgt (num (a + (k : ℚ))) (num m) = true := by
          simp only [jgt, jlt_num, decide_eq_true_eq]; simpa using hm
        by_cases hn : (!(f (num (a + k))).isNaNb && !(f (num (a + k + 1))).isNaNb) = true
        · rw [if_pos (hle k), if_pos hn, if_neg (by rw [hnoconv k hn]; simp), if_pos hgt]
        · rw [if_pos (hle k), if_neg hn, if_pos hgt]
      · have hgt : jgt (num (a + (k : ℚ))) (num m) = false := by
          simp only [jgt, jlt_num]
          simpa using hm
        have hcast : num (a + (k:ℚ) + 1) = num (a + ((k+1 : ℕ) : ℚ)) := by push_cast; ring_nf
        have hnext := ih (k+1) (by push_cast at hk ⊢; linarith)
        by_cases hn : (!(f (num (a + k))).isNaNb && !(f (num (a + k + 1))).isNaNb) = true
        · have hs1 : jadd (infS1 f a k) (f (num (a + k))) = infS1 f a (k+1) := by
            rw [infS1, if_pos hn]
          rw [if_pos (hle k), if_pos hn, if_neg (by rw [hnoconv k hn]; simp),
            if_neg (by rw [hgt]; simp), hs1, hcast]
          exact hnext
        · have hs1 : infS1 f a k = infS1 f a (k+1) := by
            rw [infS1, if_neg hn]
          rw [if_pos (hle k), if_neg hn, if_neg (by rw [hgt]; simp), hs1, hcast]
          exact hnext

/-- Claim C7: when the `inf_sum` branch of `Math.h.sum` (upper bound
`Infinity`, finite lower bound `a`, finite cap `max`) never satisfies its
one-step-ahead convergence test, the index passes the cap and the function
returns the `undefined` sentinel — a reported failure, not an exception (the
model is a total function; every exit of the loop is a returned value). -/
theorem C7_nonconvergence_returns_undefined (f : JsNum → JsNum) (a m : ℚ) (tol : JsNum)
    (hbr : ∀ j : ℕ, infBreaks f a (resolvedTol tol) j = false) :
    hsum f (num a) inf tol (num m) = some undef := by
  have hdisp : (jabs (num a) = inf ∨ jabs inf = inf) := Or.inr rfl
  have hmax : resolvedMax (num m) = num m := rfl
  have hfuel : sumDefaultFuel (num a) inf (num m) = (⌈m⌉ - ⌊a⌋).toNat + 3 := rfl
  have h2 : (m : ℚ) ≤ ((⌈m⌉ : ℤ) : ℚ) := by exact_mod_cast Int.le_ceil m
  have h3 : ((⌊a⌋ : ℤ) : ℚ) ≤ a := by exact_mod_cast Int.floor_le a
  have hbound : m < a + (0 : ℕ) + ((⌈m⌉ - ⌊a⌋).toNat + 2 : ℕ) := by
    push_cast
    rcases le_or_lt 0 (⌈m⌉ - ⌊a⌋) with h0 | h0
    · have h1 : (((⌈m⌉ - ⌊a⌋).toNat : ℕ) : ℚ) = ((⌈m⌉ : ℤ) : ℚ) - ((⌊a⌋ : ℤ) : ℚ) := by
        exact_mod_cast congrArg (fun z : ℤ => (z : ℚ)) (Int.toNat_of_nonneg h0)
      rw [h1]
      linarith
    · have h1 : (⌈m⌉ - ⌊a⌋).toNat = 0 := Int.toNat_of_nonpos h0.le
      have h2b : ((⌈m⌉ : ℤ) : ℚ) ≤ ((⌊a⌋ : ℤ) : ℚ) - 1 := by
        have : ⌈m⌉ ≤ ⌊a⌋ - 1 := by omega
        exact_mod_cast this
      rw [h1]
      push_cast
      linarith
  have := infSumAux_cap f (resolvedTol tol) m a hbr ((⌈m⌉ - ⌊a⌋).toNat + 2) 0 hbound
  unfold hsum sumFuel
  rw [if_pos hdisp, hfuel, hmax]
  have hzero : (num (a + ((0:ℕ):ℚ))) = num a := by norm_num
  rw [show (⌈m⌉ - ⌊a⌋).toNat + 3 = ((⌈m⌉ - ⌊a⌋).toNat + 2) + 1 by ring, ← hzero]
  exact this

/-- Witness for C7: the constant series `f ≡ 1` with cap `max = 3` never
meets the tolerance (each one-step-ahead difference is `1`), and the sum
reports the `undefined` sentinel. -/
theorem C7_nonconvergence_witness :
    hsum (fun _ => num 1) (num 0) inf undef (num 3) = some undef := by
  apply C7_nonconvergence_returns_undefined (fun _ => num 1) 0 3 undef
  intro j
  unfold infBreaks
  rcases hs : infS1 (fun _ => num 1) 0 j with q | _ | _ | _ | _ <;>
    with_unfolding_all simp [jadd, jsub, jneg, jabs, jlt, resolvedTol, isNaNb]
  have : q + 1 + (-1 + (-1 + -q)) = -1 := by ring
  rw [this]
  norm_num

/-! ## Claim C8 -/

/-- The specification-side value of a finite sum: fold `f` over the whole
closed integer range `[a, b]`, adding a term exactly when it is not NaN. -/
def finSpecSum (f : JsNum → JsNum) (a b : ℤ) : JsNum :=
  ((List.range (b - a + 1).toNat).map (fun k : ℕ => f (num ((a : ℚ) + (k : ℚ))))).foldl
    (fun s v => if v.isNaNb = false then jadd s v else s) (num 0)

theorem finSumAux_eq_fold (f : JsNum → JsNum) (b : ℤ) :
    ∀ (n : ℕ) (i : ℤ) (s : JsNum) (fuel : ℕ), n = (b - i + 1).toNat → n < fuel →
      finSumAux f (num (b : ℚ)) fuel (num (i : ℚ)) s =
        some (((List.range n).map (fun k : ℕ => f (num ((i : ℚ) + (k : ℚ))))).foldl
          (fun s v => if v.isNaNb = false then jadd s v else s) s) := by
  intro n
  induction n with
  | zero =>
      intro i s fuel hn hf
      rcases fuel with _ | fuel
      · omega
      have hgt : ¬ (i : ℚ) ≤ (b : ℚ) := by
        have : b - i + 1 ≤ 0 := by omega
        have : b < i := by omega
        exact_mod_cast not_le.mpr (by exact_mod_cast this)
      show finSumAux f (num (b : ℚ)) (fuel + 1) (num (i : ℚ)) s = _
      rw [finSumAux]
      rw [if_neg (by simpa [jle] using hgt)]
      rfl
  | succ n ih =>
      intro i s fuel hn hf
      rcases fuel with _ | fuel
      · omega
      have hle : (i : ℚ) ≤ (b : ℚ) := by
        have : i ≤ b := by omega
        exact_mod_cast this
      show finSumAux f (num (b : ℚ)) (fuel + 1) (num (i : ℚ)) s = _
      rw [finSumAux]
      rw [if_pos (by simpa [jle] using hle)]
      have hstep : jadd (num (i : ℚ)) (num 1) = num ((i + 1 : ℤ) : ℚ) := by
        rw [jadd_num]; push_cast; ring_nf
      rw [hstep]
      rw [ih (i + 1) _ fuel (by omega) (by omega)]
      congr 1
      rw [List.range_succ_eq_map]
      simp only [List.map_cons, List.map_map, List.foldl_cons]
      have h0 : ((i : ℚ) + ((0 : ℕ) : ℚ)) = (i : ℚ) := by norm_num
      rw [h0]
      congr 1
      · rcases hcase : (f (num (i:ℚ))).isNaNb with _ | _ <;> simp [hcase]
      · apply List.map_congr_left
        intro k _
        simp only [Function.comp]
        congr 2
        push_cast
        ring

/-- Claim C8: for finite integer bounds `a ≤ b`, `Math.h.sum` takes the
`fin_sum` branch and returns exactly the fold of `f` over the closed integer
range `[a, b]` in which NaN terms are skipped (they do not poison the running
total) and no early exit occurs — the loop condition is `i ≤ b` alone. -/
theorem C8_finite_sum_skips_nan (f : JsNum → JsNum) (a b : ℤ) (tol maxT : JsNum)
    (hab : a ≤ b) :
    hsum f (num (a : ℚ)) (num (b : ℚ)) tol maxT = some (finSpecSum f a b) := by
  have hdisp : ¬ (jabs (num (a : ℚ)) = inf ∨ jabs (num (b : ℚ)) = inf) := by
    simp [jabs]
  have hfuel : sumDefaultFuel (num (a : ℚ)) (num (b : ℚ)) maxT =
      (⌈(b : ℚ)⌉ - ⌊(a : ℚ)⌋).toNat + 2 := by
    unfold sumDefaultFuel
    rw [if_neg hdisp]
  have hceil : ⌈(b : ℚ)⌉ = b := Int.ceil_intCast b
  have hfloor : ⌊(a : ℚ)⌋ = a := Int.floor_intCast a
  unfold hsum sumFuel
  rw [if_neg hdisp, hfuel, hceil, hfloor]
  exact finSumAux_eq_fold f b ((b - a + 1).toNat) a (num 0) ((b - a).toNat + 2) rfl (by omega)

/-- Witness for C8: summing `f(i) = i` over `[0, 2]` with the term at `i = 1`
replaced by NaN yields `0 + 2 = 2` — the NaN term is skipped, the others are
kept. -/
theorem C8_finite_sum_witness :
    (0 : ℤ) ≤ 2 ∧
      hsum (fun i => if i = num 1 then nan else i) (num ((0 : ℤ) : ℚ)) (num ((2 : ℤ) : ℚ))
        undef undef = some (finSpecSum (fun i => if i = num 1 then nan else i) 0 2) ∧
      finSpecSum (fun i => if i = num 1 then nan else i) 0 2 = num 2 := by
  refine ⟨by norm_num, C8_finite_sum_skips_nan _ 0 2 undef undef (by norm_num), ?_⟩
  with_unfolding_all decide

/-! ## Claim C9 -/

/-- The stencil estimate at iteration `k` of the derivative loop: the step
size starts at `0.01` and is halved before each evaluation, so iteration `k`
evaluates at `h = 0.01/2^(k+1)`. -/
def vSeq (ops : JsOps) (f : JsNum → JsNum) (o x : JsNum) (k : ℕ) : JsNum :=
  stencil ops f o x (num ((1/100 : ℚ) / 2 ^ (k+1)))

/-- The successive absolute difference `d[k] = |v[k] - v[k-1]|`. -/
def dSeq (ops : JsOps) (f : JsNum → JsNum) (o x : JsNum) (k : ℕ) : JsNum :=
  jabs (jsub (vSeq ops f o x k) (vSeq ops f o x (k-1)))

/-- The return condition of the derivative loop at iteration `k`: both the
current and previous estimates non-NaN and finite, and the current difference
at least the previous one (`d[k] ≥ d[k-1]`).  At `k < 2` the source compares
against the unassigned slot `d[0]` (`undefined`), so the condition is
false. -/
def stopAt (ops : JsOps) (f : JsNum → JsNum) (o x : JsNum) (k : ℕ) : Bool :=
  decide (2 ≤ k) && !(vSeq ops f o x k).isNaNb && !(vSeq ops f o x (k-1)).isNaNb &&
    !isInfiniteB (vSeq ops f o x k) && !isInfiniteB (vSeq ops f o x (k-1)) &&
    jge (dSeq ops f o x k) (dSeq ops f o x (k-1))

/-- One-step unfolding of the derivative loop. -/
theorem derivAux_step (ops : JsOps) (f : JsNum → JsNum) (o x : JsNum) (fuel i : ℕ)
    (h prevV : JsNum) (prevD : Option JsNum) :
    derivAux ops f o x (fuel+1) i h prevV prevD =
      if i ≤ 99999 then
        if i ≠ 0 then
          if (!(stencil ops f o x (jsub h (jdiv h (num 2)))).isNaNb && !prevV.isNaNb &&
              !isInfiniteB (stencil ops f o x (jsub h (jdiv h (num 2)))) && !isInfiniteB prevV &&
              (match prevD with
               | some pd => jge (jabs (jsub (stencil ops f o x (jsub h (jdiv h (num 2)))) prevV)) pd
               | none => false)) = true then
            some prevV
          else
            derivAux ops f o x fuel (i+1) (jsub h (jdiv h (num 2)))
              (stencil ops f o x (jsub h (jdiv h (num 2))))
              (some (jabs (jsub (stencil ops f o x (jsub h (jdiv h (num 2)))) prevV)))
        else
          derivAux ops f o x fuel (i+1) (jsub h (jdiv h (num 2)))
            (stencil ops f o x (jsub h (jdiv h (num 2)))) none
      else some undef := rfl

/-- Halving the step: `h - h/2 = h/2` on exact rationals. -/
theorem jsub_half (q : ℚ) : jsub (num q) (jdiv (num q) (num 2)) = num (q / 2) := by
  rw [jdiv_num q 2 (by norm_num), jsub_num]
  congr 1
  ring

theorem derivAux_firstStop (ops : JsOps) (f : JsNum → JsNum) (o x : JsNum) (k : ℕ)
    (hcap : k ≤ 99999) (hstop : stopAt ops f o x k = true)
    (hmin : ∀ j, j < k → stopAt ops f o x j = false) :
    ∀ (n j fuel : ℕ), j + n = k → 1 ≤ j → k < fuel + j →
      derivAux ops f o x fuel j (num ((1/100 : ℚ) / 2 ^ j)) (vSeq ops f o x (j-1))
        (if 2 ≤ j then some (dSeq ops f o x (j-1)) else none) =
        some (vSeq ops f o x (k-1)) := by
  have hcond : ∀ j : ℕ, 1 ≤ j →
      ((!(vSeq ops f o x j).isNaNb && !(vSeq ops f o x (j-1)).isNaNb &&
        !isInfiniteB (vSeq ops f o x j) && !isInfiniteB (vSeq ops f o x (j-1)) &&
        (match (if 2 ≤ j then some (dSeq ops f o x (j-1)) else none) with
         | some pd => jge (dSeq ops f o x j) pd
         | none => false)) = stopAt ops f o x j) := by
    intro j hj
    by_cases h2 : 2 ≤ j
    · rw [if_pos h2]
      unfold stopAt
      rw [decide_eq_true h2]
      dsimp only
      cases (vSeq ops f o x j).isNaNb <;> cases (vSeq ops f o x (j-1)).isNaNb <;>
        cases isInfiniteB (vSeq ops f o x j) <;> cases isInfiniteB (vSeq ops f o x (j-1)) <;>
        cases jge (dSeq ops f o x j) (dSeq ops f o x (j-1)) <;> rfl
    · rw [if_neg h2]
      unfold stopAt
      rw [decide_eq_false h2]
      dsimp only
      cases (vSeq ops f o x j).isNaNb <;> cases (vSeq ops f o x (j-1)).isNaNb <;>
        cases isInfiniteB (vSeq ops f o x j) <;> cases isInfiniteB (vSeq ops f o x (j-1)) <;>
        cases jge (dSeq ops f o x j) (dSeq ops f o x (j-1)) <;> rfl
  intro n
  induction n with
  | zero =>
      intro j fuel hjn hj1 hfuel
      have hjk : j = k := by omega
      subst hjk
      rcases fuel with _ | fuel
      · omega
      rw [derivAux_step]
      rw [if_pos (by omega : j ≤ 99999), if_pos (by omega : j ≠ 0)]
      have hh : jsub (num ((1/100 : ℚ) / 2 ^ j)) (jdiv (num ((1/100 : ℚ) / 2 ^ j)) (num 2)) =
          num ((1/100 : ℚ) / 2 ^ (j+1)) := by
        rw [jsub_half]
        congr 1
        rw [pow_succ]
        ring
      rw [hh]
      have hv : stencil ops f o x (num ((1/100 : ℚ) / 2 ^ (j+1))) = vSeq ops f o x j := rfl
      rw [hv]
      have hd : jabs (jsub (vSeq ops f o x j) (vSeq ops f o x (j-1))) = dSeq ops f o x j := rfl
      rw [hd, if_pos]
      rw [hcond j hj1]
      exact hstop
  | succ n ih =>
      intro j fuel hjn hj1 hfuel
      have hjk : j < k := by omega
      rcases fuel with _ | fuel
      · omega
      rw [derivAux_step]
      rw [if_pos (by omega : j ≤ 99999), if_pos (by omega : j ≠ 0)]
      have hh : jsub (num ((1/100 : ℚ) / 2 ^ j)) (jdiv (num ((1/100 : ℚ) / 2 ^ j)) (num 2)) =
          num ((1/100 : ℚ) / 2 ^ (j+1)) := by
        rw [jsub_half]
        congr 1
        rw [pow_succ]
        ring
      rw [hh]
      have hv : stencil ops f o x (num ((1/100 : ℚ) / 2 ^ (j+1))) = vSeq ops f o x j := rfl
      rw [hv]
      have hd : jabs (jsub (vSeq ops f o x j) (vSeq ops f o x (j-1))) = dSeq ops f o x j := rfl
      rw [hd, if_neg]
      · have h2 : 2 ≤ j + 1 := by omega
        have := ih (j+1) fuel (by omega) (by omega) (by omega)
        rw [if_pos h2] at this
        simpa using this
      · rw [hcond j hj1, hmin j hjk]
        simp

/-- Claim C9: `Math.h.derivative` evaluates the binomial-weight central
finite-difference stencil at successively halved step sizes starting from
`h = 0.01` (halving before each evaluation, so iteration `k` uses
`0.01/2^(k+1)`), and at the first iteration `k` whose absolute successive
difference fails to shrink (`d[k] ≥ d[k-1]`, both estimates non-NaN and
finite) it returns the previous estimate `v[k-1]`, not the current one. -/
theorem C9_derivative_returns_previous_estimate (ops : JsOps) (f : JsNum → JsNum)
    (o x : JsNum) (k : ℕ) (hcap : k ≤ 99999) (hstop : stopAt ops f o x k = true)
    (hmin : ∀ j, j < k → stopAt ops f o x j = false) :
    derivativeJ ops f o x = vSeq ops f o x (k-1) := by
  have hk2 : 2 ≤ k := by
    by_contra h2
    unfold stopAt at hstop
    rw [decide_eq_false h2] at hstop
    simp at hstop
  unfold derivativeJ
  rw [show (100001 : ℕ) = 100000 + 1 from rfl, derivAux_step]
  rw [if_pos (by omega : (0:ℕ) ≤ 99999), if_neg (by omega : ¬ (0:ℕ) ≠ 0)]
  have hh : jsub (num (1/100 : ℚ)) (jdiv (num (1/100 : ℚ)) (num 2)) =
      num ((1/100 : ℚ) / 2 ^ 1) := by
    rw [jsub_half]
    norm_num
  rw [hh]
  have hv : stencil ops f o x (num ((1/100 : ℚ) / 2 ^ 1)) = vSeq ops f o x 0 := rfl
  rw [hv]
  have := derivAux_firstStop ops f o x k hcap hstop hmin (k - 1) 1 100000
    (by omega) (by omega) (by omega)
  rw [if_neg (by omega : ¬ 2 ≤ 1)] at this
  rw [show vSeq ops f o x (1 - 1) = vSeq ops f o x 0 from rfl] at this
  rw [this]
  rfl

/-- Witness for C9: for `f(t) = t` at order `1`, every stencil estimate is
exactly `1`, the differences are `0` from iteration `2` on, the loop first
stops at `k = 2`, and the derivative returns `v[1] = 1`. -/
theorem C9_derivative_witness :
    stopAt ops0 (fun t => t) (num 1) (num 0) 2 = true ∧
      derivativeJ ops0 (fun t => t) (num 1) (num 0) = vSeq ops0 (fun t => t) (num 1) (num 0) 1 ∧
      vSeq ops0 (fun t => t) (num 1) (num 0) 1 = num 1 := by
  have h1 : stopAt ops0 (fun t => t) (num 1) (num 0) 2 = true := by
    with_unfolding_all decide
  refine ⟨h1, ?_, by with_unfolding_all decide⟩
  have h2 : ∀ j, j < 2 → stopAt ops0 (fun t => t) (num 1) (num 0) j = false := by
    intro j hj
    interval_cases j <;> with_unfolding_all decide
  exact C9_derivative_returns_previous_estimate ops0 (fun t => t) (num 1) (num 0) 2
    (by omega) h1 h2

/-! ## Claim C2 -/

/-- Termination of `Math.h.sum` on given arguments: some fuel makes the loop
return. -/
def SumTerminates (f : JsNum → JsNum) (a b tol maxT : JsNum) : Prop :=
  ∃ n r, sumFuel n f a b tol maxT = some r

/-- Termination of `Math.h.derivative` on given arguments. -/
def DerivTerminates (ops : JsOps) (f : JsNum → JsNum) (o x : JsNum) : Prop :=
  ∃ n r, derivAux ops f o x n 0 (num (1/100)) nan none = some r

/-- Termination of `Math.p.generatePDF` on given arguments. -/
def GenPDFTerminates (d : DistR) (params : ParamsR) (m : MomentsR) (inc : JsNum) : Prop :=
  ∃ n l, genPDF d params m inc n = some l

/-- One-step unfolding of the `generatePDF` walk. -/
theorem genPDFAux_step (d : DistR) (params : ParamsR) (m : MomentsR) (inc start : JsNum)
    (fuel : ℕ) (i : JsNum) (v : ℕ) (acc : List SP) :
    genPDFAux d params m inc start (fuel+1) i v acc =
      if (jle (jabs (jsub start i)) (jmul (num 10) m.variance) || jlt i (num 99999)) = true then
        if (decide (10 < (if (d.pdf params (jsub start i)).isNaNb ||
              jle (d.pdf params (jsub start i)) (num 0) then v + 1 else v)) ||
            (jdiv i inc).isNaNb ||
            (!(d.pdf params (jsub start i)).isNaNb &&
              (jge (d.pdf params (jsub start i)) (num 0) &&
               jle (d.pdf params (jsub start i)) (num (1/100000))))) = true then
          some acc.reverse
        else
          genPDFAux d params m inc start fuel (jadd i inc)
            (if (d.pdf params (jsub start i)).isNaNb ||
                jle (d.pdf params (jsub start i)) (num 0) then v + 1 else v)
            (if inBoundsB (jsub start i) (d.bounds params) &&
                !(d.pdf params (jsub start i)).isNaNb then
              ⟨jsub start i, d.pdf params (jsub start i)⟩ :: acc else acc)
      else some acc.reverse := rfl

/-- The `inf_sum` loop never returns when the lower bound is `-Infinity` and
the series is the constant `1`: the index `-∞ + 1 = -∞` never moves, the cap
test `-∞ > max` never fires, and the one-step-ahead difference is always
`1`. -/
theorem infSumAux_minus_infinity_diverges :
    ∀ (n : ℕ) (q : ℚ),
      infSumAux (fun _ => num 1) inf (resolvedTol undef) (resolvedMax undef) n ninf (num q) =
        none := by
  intro n
  induction n with
  | zero => intro q; rfl
  | succ n ih =>
      intro q
      rw [infSumAux_step]
      rw [if_pos (show jle ninf inf = true from rfl)]
      rw [if_pos (show (!(num 1 : JsNum).isNaNb && !(num 1 : JsNum).isNaNb) = true from rfl)]
      rw [if_neg (show ¬ jlt (jabs (jsub (jadd (num q) (num 1))
        (jadd (jadd (num q) (num 1)) (num 1)))) (resolvedTol undef) = true by
          rw [jadd_num, jadd_num, jsub_num]
          have h1 : q + 1 - (q + 1 + 1) = -1 := by ring
          rw [h1]
          show ¬ jlt (num 1) (num (1/1000000000000)) = true
          rw [jlt_num]
          norm_num)]
      rw [if_neg (show ¬ jgt ninf (resolvedMax undef) = true by
        show ¬ jgt ninf (num 1000000) = true
        simp [jgt, jlt])]
      rw [show jadd ninf (num 1) = ninf from rfl, jadd_num]
      exact ih (q + 1)

/-- The divergence half of the C2 counterexample for the sum. -/
theorem sum_minus_infinity_diverges :
    ¬ SumTerminates (fun _ => num 1) ninf inf undef undef := by
  rintro ⟨n, r, h⟩
  unfold sumFuel at h
  have hc : (jabs ninf = inf ∨ jabs inf = inf) := Or.inl rfl
  rw [if_pos hc] at h
  rw [infSumAux_minus_infinity_diverges n 0] at h
  exact absurd h (by simp)

/-- `(-1)^(2 + 2k) = 1` through `jsPow` (even integral exponent on a
negative base). -/
theorem jsPow_neg_one_even (ops : JsOps) (k : ℕ) :
    jsPow ops (num (-1)) (num (2 + 2 * (k:ℚ))) = num 1 := by
  have hb : (2 + 2*(k:ℚ)) = ((2 + 2*k : ℕ) : ℚ) := by push_cast; ring
  have hne : (2 + 2*(k:ℚ)) ≠ 0 := by positivity
  have hstep : jsPow ops (num (-1)) (num (2 + 2 * (k:ℚ))) =
      if (2 + 2*(k:ℚ)) = 0 then num 1
      else
        if ratIsInt (2 + 2*(k:ℚ)) then
          if (-1 : ℚ) = 0 ∧ (2 + 2*(k:ℚ)) < 0 then inf
          else num ((-1 : ℚ) ^ (2 + 2*(k:ℚ)).num)
        else
          if (-1 : ℚ) < 0 then nan
          else if (-1 : ℚ) = 0 then (if (2 + 2*(k:ℚ)) > 0 then num 0 else inf)
          else num (ops.powf (-1) (2 + 2*(k:ℚ))) := rfl
  rw [hstep, if_neg hne]
  rw [if_pos (show ratIsInt (2 + 2*(k:ℚ)) = true by
    unfold ratIsInt
    exact decide_eq_true (by rw [hb]; exact Rat.den_natCast _))]
  rw [if_neg (show ¬ ((-1 : ℚ) = 0 ∧ (2 + 2*(k:ℚ)) < 0) by push_neg; intro h; norm_num at h)]
  have hnum : (2 + 2*(k:ℚ)).num = ((2 + 2*k : ℕ) : ℤ) := by rw [hb]; exact Rat.num_natCast _
  rw [hnum]
  congr 1
  rw [zpow_natCast]
  exact Even.neg_one_pow ⟨1 + k, by ring⟩

/-- The `generatePDF` walk for the geometric entry with `p = 2`, moments
`{mean 0, variance 1}` and increment `-2` never returns: the samples are the
even integers `2, 4, 6, …`, where the pmf `(1-2)^k·2` is constantly `2`
(never NaN, never `≤ 0`, never within the `1e-5` cutoff), and the loop guard
`… || i < 99999` stays true forever because `i` only decreases. -/
theorem genPDFAux_geometric_diverges :
    ∀ (n k v : ℕ) (acc : List SP), v ≤ 10 →
      genPDFAux (geometricDistr ops0) { p := num 2 } { mean := num 0, variance := num 1 }
        (num (-2)) (num 2) n (num (-(2 * (k:ℚ)))) v acc = none := by
  intro n
  induction n with
  | zero => intro k v acc _; rfl
  | succ n ih =>
      intro k v acc hv
      have hval : (geometricDistr ops0).pdf { p := num 2 }
          (jsub (num 2) (num (-(2 * (k:ℚ))))) = num 2 := by
        show jmul (jsPow ops0 (jsub (num 1) (num 2)) (jsub (num 2) (num (-(2 * (k:ℚ))))))
          (num 2) = num 2
        rw [jsub_num, jsub_num]
        rw [show (1 : ℚ) - 2 = -1 by norm_num, show (2 : ℚ) - -(2 * (k:ℚ)) = 2 + 2*k by ring]
        rw [jsPow_neg_one_even]
        rw [jmul_num]
        norm_num
      rw [genPDFAux_step, hval]
      rw [if_pos (show (jle (jabs (jsub (num 2) (num (-(2 * (k:ℚ)))))) (jmul (num 10)
          ({ mean := num 0, variance := num 1 } : MomentsR).variance) ||
          jlt (num (-(2 * (k:ℚ)))) (num 99999)) = true by
        have h2 : jlt (num (-(2 * (k:ℚ)))) (num 99999) = true := by
          rw [jlt_num]
          rw [decide_eq_true_eq]
          have : (0:ℚ) ≤ 2 * k := by positivity
          linarith
        rw [h2, Bool.or_true])]
      rw [if_neg (show ¬ (decide (10 < (if (num 2 : JsNum).isNaNb ||
            jle (num 2) (num 0) then v + 1 else v)) ||
          (jdiv (num (-(2 * (k:ℚ)))) (num (-2))).isNaNb ||
          (!(num 2 : JsNum).isNaNb &&
            (jge (num 2) (num 0) && jle (num 2) (num (1/100000))))) = true by
        have hvv : (if (num 2 : JsNum).isNaNb || jle (num 2) (num 0) then v + 1 else v) = v := by
          rw [if_neg]
          rw [show ((num 2 : JsNum).isNaNb || jle (num 2) (num 0)) = false by
            rw [show (num 2 : JsNum).isNaNb = false from rfl]
            rw [show jle (num 2) (num 0) = false by rw [jle_num]; norm_num]
            rfl]
          simp
        rw [hvv]
        rw [decide_eq_false (by omega : ¬ 10 < v)]
        rw [jdiv_num _ _ (by norm_num : (-2 : ℚ) ≠ 0)]
        rw [show (num (-(2 * (k:ℚ)) / -2) : JsNum).isNaNb = false from rfl]
        rw [show jle (num 2) (num (1/100000)) = false by rw [jle_num]; norm_num]
        simp)]
      have harg : jadd (num (-(2 * (k:ℚ)))) (num (-2)) = num (-(2 * ((k+1 : ℕ):ℚ))) := by
        rw [jadd_num]
        congr 1
        push_cast
        ring
      rw [harg]
      apply ih (k+1) _ _ ?_
      have hvv : (if (num 2 : JsNum).isNaNb || jle (num 2) (num 0) then v + 1 else v) = v := by
        rw [if_neg]
        rw [show ((num 2 : JsNum).isNaNb || jle (num 2) (num 0)) = false by
          rw [show (num 2 : JsNum).isNaNb = false from rfl]
          rw [show jle (num 2) (num 0) = false by rw [jle_num]; norm_num]
          rfl]
        simp
      rw [hvv]
      exact hv

/-- The divergence half of the C2 counterexample for the density-sampler
walk. -/
theorem genPDF_geometric_diverges :
    ¬ GenPDFTerminates (geometricDistr ops0) { p := num 2 }
      { mean := num 0, variance := num 1 } (num (-2)) := by
  rintro ⟨n, l, h⟩
  unfold genPDF at h
  have hstart : genPDFstart (geometricDistr ops0) { mean := num 0, variance := num 1 }
      (num (-2)) = num 2 := by with_unfolding_all decide
  rw [hstart] at h
  have hdiv := genPDFAux_geometric_diverges n 0 0 [] (by omega)
  rw [show (-(2 * ((0:ℕ):ℚ))) = (0:ℚ) by norm_num] at hdiv
  rw [hdiv] at h
  exact absurd h (by simp)

/-- Counterexample to claim C2 as stated: two concrete invocations that never
terminate.  `Math.h.sum(i ↦ 1, -Infinity, Infinity)` loops forever because
`-∞ + 1 = -∞` never exceeds the cap, and
`Math.p.generatePDF('geometric', {p: 2}, {mean: 0, variance: 1}, -2)` loops
forever because its loop guard `… || i < 99999` is an `OR` — for a negative
increment `i` only decreases, so the `99999` cap never becomes a ceiling,
and the sampled pmf values are constantly `2`, triggering no break.  (Under
IEEE doubles the second walk would instead break only after `i` overflows to
`-Infinity` near `1e308` iterations — either way the `99999` cap is not a
hard ceiling, which is what the claim asserts.) -/
theorem C2_counterexample :
    (¬ SumTerminates (fun _ => num 1) ninf inf undef undef) ∧
    ¬ GenPDFTerminates (geometricDistr ops0) { p := num 2 }
      { mean := num 0, variance := num 1 } (num (-2)) :=
  ⟨sum_minus_infinity_diverges, genPDF_geometric_diverges⟩

/-- One-step unfolding of the `fin_sum` loop. -/
theorem finSumAux_step (f : JsNum → JsNum) (b : JsNum) (fuel : ℕ) (i s1 : JsNum) :
    finSumAux f b (fuel+1) i s1 =
      if jle i b then
        finSumAux f b fuel (jadd i (num 1)) (if !(f i).isNaNb then jadd s1 (f i) else s1)
      else some s1 := rfl

theorem finSumAux_term (f : JsNum → JsNum) (bq : ℚ) :
    ∀ (n : ℕ) (i : ℚ) (s : JsNum) (fuel : ℕ), bq < i + n → n < fuel →
      ∃ r, finSumAux f (num bq) fuel (num i) s = some r := by
  intro n
  induction n with
  | zero =>
      intro i s fuel h hf
      rcases fuel with _ | fuel
      · omega
      rw [finSumAux_step, if_neg (show ¬ jle (num i) (num bq) = true by
        rw [jle_num]; simp; push_cast at h; linarith)]
      exact ⟨s, rfl⟩
  | succ n ih =>
      intro i s fuel h hf
      rcases fuel with _ | fuel
      · omega
      rw [finSumAux_step]
      by_cases hle : jle (num i) (num bq) = true
      · rw [if_pos hle, show jadd (num i) (num 1) = num (i+1) from rfl]
        exact ih (i+1) _ fuel (by push_cast at h ⊢; linarith) (by omega)
      · rw [if_neg hle]
        exact ⟨s, rfl⟩

theorem infSumAux_term (f : JsNum → JsNum) (tolR : JsNum) (mq : ℚ) :
    ∀ (n : ℕ) (i : ℚ) (s : JsNum) (fuel : ℕ), mq < i + n → n < fuel →
      ∃ r, infSumAux f inf tolR (num mq) fuel (num i) s = some r := by
  intro n
  induction n with
  | zero =>
      intro i s fuel h hf
      rcases fuel with _ | fuel
      · omega
      have hgt : jgt (num i) (num mq) = true := by
        show jlt (num mq) (num i) = true
        rw [jlt_num]; simp; push_cast at h; linarith
      rw [infSumAux_step, if_pos (show jle (num i) inf = true from rfl)]
      by_cases hn : (!(f (num i)).isNaNb && !(f (jadd (num i) (num 1))).isNaNb) = true
      · rw [if_pos hn]
        by_cases hc : jlt (jabs (jsub (jadd s (f (num i)))
            (jadd (jadd s (f (num i))) (f (jadd (num i) (num 1)))))) tolR = true
        · rw [if_pos hc]; exact ⟨_, rfl⟩
        · rw [if_neg hc, if_pos hgt]; exact ⟨undef, rfl⟩
      · rw [if_neg hn, if_pos hgt]; exact ⟨undef, rfl⟩
  | succ n ih =>
      intro i s fuel h hf
      rcases fuel with _ | fuel
      · omega
      rw [infSumAux_step, if_pos (show jle (num i) inf = true from rfl)]
      by_cases hn : (!(f (num i)).isNaNb && !(f (jadd (num i) (num 1))).isNaNb) = true
      · rw [if_pos hn]
        by_cases hc : jlt (jabs (jsub (jadd s (f (num i)))
            (jadd (jadd s (f (num i))) (f (jadd (num i) (num 1)))))) tolR = true
        · rw [if_pos hc]; exact ⟨_, rfl⟩
        · rw [if_neg hc]
          by_cases hg : jgt (num i) (num mq) = true
          · rw [if_pos hg]; exact ⟨undef, rfl⟩
          · rw [if_neg hg, show jadd (num i) (num 1) = num (i+1) from rfl]
            exact ih (i+1) _ fuel (by push_cast at h ⊢; linarith) (by omega)
      · rw [if_neg hn]
        by_cases hg : jgt (num i) (num mq) = true
        · rw [if_pos hg]; exact ⟨undef, rfl⟩
        · rw [if_neg hg, show jadd (num i) (num 1) = num (i+1) from rfl]
          exact ih (i+1) _ fuel (by push_cast at h ⊢; linarith) (by omega)

/-- Conjunct (1) of the amended C2: `Math.h.sum` terminates whenever the
lower bound is finite and the (defaulted) cap is neither `Infinity` nor
NaN. -/
theorem sumTerm_finite_lower (f : JsNum → JsNum) (a : ℚ) (b tol maxT : JsNum)
    (hinf : resolvedMax maxT ≠ inf) (hnan : (resolvedMax maxT).isNaNb = false) :
    SumTerminates f (num a) b tol maxT := by
  unfold SumTerminates sumFuel
  have hcast : ∀ mq : ℚ, mq < a + (((⌈mq - a⌉).toNat + 1 : ℕ) : ℚ) := by
    intro mq
    have h1 : (mq - a) ≤ ((⌈mq - a⌉ : ℤ) : ℚ) := Int.le_ceil _
    have h2 : ((⌈mq - a⌉ : ℤ) : ℚ) ≤ (((⌈mq - a⌉).toNat : ℕ) : ℚ) := by
      exact_mod_cast Int.self_le_toNat _
    push_cast
    push_cast at h2
    linarith
  by_cases hdisp : (jabs (num a) = inf ∨ jabs b = inf)
  · have hb : b = inf ∨ b = ninf := by
      rcases hdisp with h | h
      · exact absurd h (by simp [jabs])
      · rcases b with q | _ | _ | _ | _ <;> simp_all [jabs]
    rcases hb with hb | hb
    · subst hb
      rcases hr : resolvedMax maxT with mq | _ | _ | _ | _
      · obtain ⟨r, hrr⟩ := infSumAux_term f (resolvedTol tol) mq ((⌈mq - a⌉).toNat + 1) a
          (num 0) ((⌈mq - a⌉).toNat + 2) (hcast mq) (by omega)
        refine ⟨(⌈mq - a⌉).toNat + 2, r, ?_⟩
        rw [if_pos hdisp]
        exact hrr
      · exact absurd hr hinf
      · by_cases hn : (!(f (num a)).isNaNb && !(f (jadd (num a) (num 1))).isNaNb) = true
        · by_cases hc : jlt (jabs (jsub (jadd (num 0) (f (num a)))
              (jadd (jadd (num 0) (f (num a))) (f (jadd (num a) (num 1)))))) (resolvedTol tol) = true
          · exact ⟨1, jadd (num 0) (f (num a)), by
              rw [if_pos hdisp, infSumAux_step, if_pos (show jle (num a) inf = true from rfl),
                if_pos hn, if_pos hc]⟩
          · exact ⟨1, undef, by
              rw [if_pos hdisp, infSumAux_step, if_pos (show jle (num a) inf = true from rfl),
                if_pos hn, if_neg hc, if_pos (show jgt (num a) ninf = true from rfl)]⟩
        · exact ⟨1, undef, by
            rw [if_pos hdisp, infSumAux_step, if_pos (show jle (num a) inf = true from rfl),
              if_neg hn, if_pos (show jgt (num a) ninf = true from rfl)]⟩
      · rw [hr] at hnan
        exact absurd hnan (by simp [isNaNb])
      · rw [hr] at hnan
        exact absurd hnan (by simp [isNaNb])
    · subst hb
      refine ⟨1, num 0, ?_⟩
      rw [if_pos hdisp]
      rw [infSumAux_step, if_neg (show ¬ jle (num a) ninf = true by simp [jle])]
  · rcases hb : b with bq | _ | _ | _ | _
    · subst hb
      obtain ⟨r, hrr⟩ := finSumAux_term f bq ((⌈bq - a⌉).toNat + 1) a (num 0)
        ((⌈bq - a⌉).toNat + 2) (hcast bq) (by omega)
      refine ⟨(⌈bq - a⌉).toNat + 2, r, ?_⟩
      rw [if_neg hdisp]
      exact hrr
    · exact absurd (Or.inr (by rw [hb]; rfl)) hdisp
    · exact absurd (Or.inr (by rw [hb]; rfl)) hdisp
    · subst hb
      refine ⟨1, num 0, ?_⟩
      rw [if_neg hdisp]
      rw [finSumAux_step, if_neg (show ¬ jle (num a) nan = true by simp [jle])]
    · subst hb
      refine ⟨1, num 0, ?_⟩
      rw [if_neg hdisp]
      rw [finSumAux_step, if_neg (show ¬ jle (num a) undef = true by simp [jle])]

/-- Conjunct (2) of the amended C2: the derivative refinement loop always
terminates — `i ≤ 99999` is a pure counter bound, every iteration either
returns or increments `i`, and falling out of the loop returns `undefined`. -/
theorem derivAux_term (ops : JsOps) (f : JsNum → JsNum) (o x : JsNum) :
    ∀ (fuel i : ℕ) (h pv : JsNum) (pd : Option JsNum), 1 ≤ fuel → 100001 ≤ fuel + i →
      ∃ r, derivAux ops f o x fuel i h pv pd = some r := by
  intro fuel
  induction fuel with
  | zero => intro i h pv pd h1 _; omega
  | succ fuel ih =>
      intro i h pv pd _ hcap
      rw [derivAux_step]
      by_cases hle : i ≤ 99999
      · rw [if_pos hle]
        by_cases hi : i ≠ 0
        · rw [if_pos hi]
          by_cases hstop : (!(stencil ops f o x (jsub h (jdiv h (num 2)))).isNaNb && !pv.isNaNb &&
              !isInfiniteB (stencil ops f o x (jsub h (jdiv h (num 2)))) && !isInfiniteB pv &&
              (match pd with
               | some pdv => jge (jabs (jsub (stencil ops f o x (jsub h (jdiv h (num 2)))) pv)) pdv
               | none => false)) = true
          · rw [if_pos hstop]
            exact ⟨pv, rfl⟩
          · rw [if_neg hstop]
            exact ih (i+1) _ _ _ (by omega) (by omega)
        · rw [if_neg hi]
          exact ih (i+1) _ _ _ (by omega) (by omega)
      · rw [if_neg hle]
        exact ⟨undef, rfl⟩

/-- The derivative loop terminates from its actual initial state. -/
theorem derivTerm (ops : JsOps) (f : JsNum → JsNum) (o x : JsNum) :
    DerivTerminates ops f o x := by
  obtain ⟨r, hr⟩ := derivAux_term ops f o x 100001 0 (num (1/100)) nan none (by omega) (by omega)
  exact ⟨100001, r, hr⟩

/-- The walk's starting point is always a finite number. -/
theorem genPDFstart_isNum (d : DistR) (m : MomentsR) (inc : ℚ) :
    ∃ sq : ℚ, genPDFstart d m (num inc) = num sq := by
  unfold genPDFstart
  rcases hm : m.mean with mq | _ | _ | _ | _
  · by_cases hbig : (jgt (jabs (num mq)) (num 99999)) = true
    · rw [show (num mq : JsNum).isNaNb = false from rfl]
      rw [hbig]
      exact ⟨0, rfl⟩
    · rw [show (num mq : JsNum).isNaNb = false from rfl]
      rw [Bool.not_eq_true] at hbig
      rw [hbig]
      simp only [Bool.false_or, if_false, Bool.or_self]
      by_cases hlt : jlt (num inc) (num 0) = true
      · rw [hlt]
        by_cases hd : d.discrete
        · refine ⟨⌊mq - inc⌋, ?_⟩
          simp [hd, jsub_num, jfloor]
        · refine ⟨mq - inc, ?_⟩
          simp [hd, jsub_num]
      · rw [Bool.not_eq_true] at hlt
        rw [hlt]
        by_cases hd : d.discrete
        · refine ⟨⌊mq⌋, ?_⟩
          simp [hd, jfloor]
        · refine ⟨mq, ?_⟩
          simp [hd]
  · rw [show (inf : JsNum).isNaNb = false from rfl,
      show jgt (jabs (inf : JsNum)) (num 99999) = true from rfl]
    exact ⟨0, rfl⟩
  · rw [show (ninf : JsNum).isNaNb = false from rfl,
      show jgt (jabs (ninf : JsNum)) (num 99999) = true from rfl]
    exact ⟨0, rfl⟩
  · rw [show (nan : JsNum).isNaNb = true from rfl]
    exact ⟨0, rfl⟩
  · rw [show (undef : JsNum).isNaNb = true from rfl]
    exact ⟨0, rfl⟩

/-- A bound past which the walk's loop guard is false: at or beyond it, `i`
exceeds `99999` and `|start - i|` exceeds `10·variance` (or that comparison
is vacuously false for a non-finite variance other than `+∞`). -/
def genBound (sq : ℚ) (variance : JsNum) : ℚ :=
  match variance with
  | num vq => max 99999 (max sq (sq + 10*vq) + 1)
  | _ => 99999

theorem gen_guard_false (sq : ℚ) (m : MomentsR) (hv : m.variance ≠ inf) (i : ℚ)
    (hi : genBound sq m.variance ≤ i) :
    (jle (jabs (jsub (num sq) (num i))) (jmul (num 10) m.variance) ||
      jlt (num i) (num 99999)) = false := by
  have hBase : (99999 : ℚ) ≤ genBound sq m.variance := by
    unfold genBound
    rcases m.variance with vq | _ | _ | _ | _ <;> simp [le_max_left]
  have h99 : jlt (num i) (num 99999) = false := by
    rw [jlt_num]
    simp only [decide_eq_false_iff_not, not_lt]
    linarith
  rcases hvv : m.variance with vq | _ | _ | _ | _
  · rw [hvv] at hi
    unfold genBound at hi
    have h1 : sq + 10*vq + 1 ≤ i := by
      have := le_max_right 99999 (max sq (sq + 10*vq) + 1)
      have := le_max_right sq (sq + 10*vq)
      linarith [le_trans (le_max_right 99999 (max sq (sq + 10*vq) + 1)) hi,
        le_max_right sq (sq + 10*vq)]
    rw [show jmul (num 10) (num vq) = num (10 * vq) from rfl]
    rw [jsub_num, jabs_num, jle_num]
    have habs : 10 * vq < |sq - i| := by
      have : sq - i ≤ -(10*vq + 1) := by linarith
      have hle2 : 10*vq + 1 ≤ |sq - i| := by
        rw [abs_sub_comm]
        calc 10*vq + 1 ≤ i - sq := by linarith
        _ ≤ |i - sq| := le_abs_self _
      linarith
    rw [decide_eq_false (by linarith : ¬ |sq - i| ≤ 10 * vq), h99]
    rfl
  · exact absurd hvv hv
  · rw [show jmul (num 10) ninf = ninf by simp [jmul]]
    rw [show jle (jabs (jsub (num sq) (num i))) ninf = false by
      rw [jsub_num, jabs_num]; rfl]
    rw [h99]
    rfl
  · rw [show jmul (num 10) nan = nan from rfl]
    rw [show jle (jabs (jsub (num sq) (num i))) nan = false by
      rw [jsub_num, jabs_num]; rfl]
    rw [h99]
    rfl
  · rw [show jmul (num 10) undef = nan from rfl]
    rw [show jle (jabs (jsub (num sq) (num i))) nan = false by
      rw [jsub_num, jabs_num]; rfl]
    rw [h99]
    rfl

theorem genPDFAux_term (d : DistR) (params : ParamsR) (m : MomentsR) (inc sq : ℚ)
    (hv : m.variance ≠ inf) :
    ∀ (n : ℕ) (i : ℚ) (v : ℕ) (acc : List SP), genBound sq m.variance ≤ i + n * inc →
      ∃ l, genPDFAux d params m (num inc) (num sq) (n+1) (num i) v acc = some l := by
  intro n
  induction n with
  | zero =>
      intro i v acc hB
      rw [genPDFAux_step]
      rw [if_neg (by
        rw [gen_guard_false sq m hv i (by push_cast at hB; linarith)]
        simp)]
      exact ⟨acc.reverse, rfl⟩
  | succ n ih =>
      intro i v acc hB
      rw [genPDFAux_step]
      by_cases hguard : (jle (jabs (jsub (num sq) (num i))) (jmul (num 10) m.variance) ||
          jlt (num i) (num 99999)) = true
      · rw [if_pos hguard]
        by_cases hbreak : (decide (10 < (if (d.pdf params (jsub (num sq) (num i))).isNaNb ||
              jle (d.pdf params (jsub (num sq) (num i))) (num 0) then v + 1 else v)) ||
            (jdiv (num i) (num inc)).isNaNb ||
            (!(d.pdf params (jsub (num sq) (num i))).isNaNb &&
              (jge (d.pdf params (jsub (num sq) (num i))) (num 0) &&
               jle (d.pdf params (jsub (num sq) (num i))) (num (1/100000))))) = true
        · rw [if_pos hbreak]
          exact ⟨acc.reverse, rfl⟩
        · rw [if_neg hbreak]
          rw [show jadd (num i) (num inc) = num (i + inc) from rfl]
          exact ih (i + inc) _ _ (by push_cast at hB ⊢; linarith)
      · rw [if_neg hguard]
        exact ⟨acc.reverse, rfl⟩

/-- Conjunct (3) of the amended C2: the density-sampler walk terminates for
every distribution entry, parameter object and moments object whenever the
increment is a positive finite number and the variance is not `+Infinity`
(exactly the regime of the capped direction of the walk). -/
theorem genTerm (d : DistR) (params : ParamsR) (m : MomentsR) (inc : ℚ)
    (hinc : 0 < inc) (hv : m.variance ≠ inf) :
    GenPDFTerminates d params m (num inc) := by
  obtain ⟨sq, hs⟩ := genPDFstart_isNum d m inc
  have hB : genBound sq m.variance ≤ 0 + ((⌈genBound sq m.variance / inc⌉).toNat + 1 : ℕ) * inc := by
    have h1 : genBound sq m.variance / inc ≤ ((⌈genBound sq m.variance / inc⌉ : ℤ) : ℚ) :=
      Int.le_ceil _
    have h2 : ((⌈genBound sq m.variance / inc⌉ : ℤ) : ℚ) ≤
        (((⌈genBound sq m.variance / inc⌉).toNat + 1 : ℕ) : ℚ) := by
      push_cast
      have := Int.self_le_toNat ⌈genBound sq m.variance / inc⌉
      have h3 : ((⌈genBound sq m.variance / inc⌉ : ℤ) : ℚ) ≤
          (((⌈genBound sq m.variance / inc⌉).toNat : ℕ) : ℚ) := by exact_mod_cast this
      linarith
    have h4 := (div_le_iff₀ hinc).mp (h1.trans h2)
    linarith
  obtain ⟨l, hl⟩ := genPDFAux_term d params m inc sq hv
    ((⌈genBound sq m.variance / inc⌉).toNat + 1) 0 0 [] hB
  refine ⟨(⌈genBound sq m.variance / inc⌉).toNat + 2, l, ?_⟩
  unfold genPDF
  rw [hs]
  exact hl

/-- Amended claim C2: (1) the series summation terminates for every input
with a finite lower bound and a cap that is neither `+Infinity` nor NaN
(as stated, the claim fails: with lower bound `-Infinity` the cap is never a
ceiling — see the counterexample); (2) the derivative refinement terminates
for every input, its cap being a hard ceiling; (3) the density-sampler walk
terminates whenever the increment is positive and the variance is not
`+Infinity` (for a negative increment the `… || i < 99999` guard is not a
ceiling — see the counterexample). -/
theorem C2_amended_termination :
    (∀ (f : JsNum → JsNum) (a : ℚ) (b tol maxT : JsNum),
      resolvedMax maxT ≠ inf → (resolvedMax maxT).isNaNb = false →
        SumTerminates f (num a) b tol maxT) ∧
    (∀ (ops : JsOps) (f : JsNum → JsNum) (o x : JsNum), DerivTerminates ops f o x) ∧
    (∀ (d : DistR) (params : ParamsR) (m : MomentsR) (inc : ℚ),
      0 < inc → m.variance ≠ inf → GenPDFTerminates d params m (num inc)) :=
  ⟨sumTerm_finite_lower, derivTerm, genTerm⟩

/-- Witness for the amended C2 at concrete inputs: the harmonic-style sum
from `0` with default cap, the derivative of the identity, and a geometric
walk with increment `+1`. -/
theorem C2_amended_witness :
    SumTerminates (fun i => i) (num 0) inf undef undef ∧
    DerivTerminates ops0 (fun t => t) (num 1) (num 0) ∧
    GenPDFTerminates (geometricDistr ops0) { p := num (1/2) }
      { mean := num 0, variance := num 1 } (num 1) :=
  ⟨C2_amended_termination.1 (fun i => i) 0 inf undef undef
      (by rw [show resolvedMax undef = num 1000000 from rfl]; simp)
      (by rw [show resolvedMax undef = num 1000000 from rfl]; rfl),
    C2_amended_termination.2.1 ops0 (fun t => t) (num 1) (num 0),
    C2_amended_termination.2.2 (geometricDistr ops0) { p := num (1/2) }
      { mean := num 0, variance := num 1 } 1 (by norm_num) (by simp)⟩

/-! ## Claim C4 -/

/-- The per-point invariant of the sampled pdf: the abscissa is within the
distribution's declared bounds, and the ordinate is non-NaN and either
negative or above the `1e-5` cutoff (a point with `0 ≤ y ≤ 1e-5` breaks the
walk before being pushed). -/
def sampleOK (d : DistR) (params : ParamsR) (p : SP) : Prop :=
  inBoundsB p.x (d.bounds params) = true ∧ p.y.isNaNb = false ∧
    (jlt p.y (num 0) = true ∨ jlt (num (1/100000)) p.y = true)

theorem genPDFAux_inv (d : DistR) (params : ParamsR) (m : MomentsR) (inc start : JsNum) :
    ∀ (fuel : ℕ) (i : JsNum) (v : ℕ) (acc l : List SP),
      (∀ p ∈ acc, sampleOK d params p) →
      genPDFAux d params m inc start fuel i v acc = some l →
      ∀ p ∈ l, sampleOK d params p := by
  intro fuel
  induction fuel with
  | zero =>
      intro i v acc l _ h
      exact absurd h (by simp [genPDFAux])
  | succ fuel ih =>
      intro i v acc l hacc h
      rw [genPDFAux_step] at h
      by_cases hguard : (jle (jabs (jsub start i)) (jmul (num 10) m.variance) ||
          jlt i (num 99999)) = true
      · rw [if_pos hguard] at h
        by_cases hbreak : (decide (10 < (if (d.pdf params (jsub start i)).isNaNb ||
              jle (d.pdf params (jsub start i)) (num 0) then v + 1 else v)) ||
            (jdiv i inc).isNaNb ||
            (!(d.pdf params (jsub start i)).isNaNb &&
              (jge (d.pdf params (jsub start i)) (num 0) &&
               jle (d.pdf params (jsub start i)) (num (1/100000))))) = true
        · rw [if_pos hbreak] at h
          obtain rfl : acc.reverse = l := by simpa using h
          intro p hp
          exact hacc p (by simpa using hp)
        · rw [if_neg hbreak] at h
          refine ih _ _ _ _ ?_ h
          by_cases hpush : (inBoundsB (jsub start i) (d.bounds params) &&
              !(d.pdf params (jsub start i)).isNaNb) = true
          · rw [if_pos hpush]
            intro p hp
            rcases List.mem_cons.mp hp with rfl | hp2
            · obtain ⟨hin, hnn⟩ := Bool.and_eq_true_iff.mp hpush
              refine ⟨hin, by simpa using hnn, ?_⟩
              dsimp only
              rw [Bool.not_eq_true, Bool.or_eq_false_iff, Bool.or_eq_false_iff] at hbreak
              obtain ⟨⟨_, _⟩, hthird⟩ := hbreak
              rw [Bool.and_eq_false_iff] at hthird
              rcases hthird with hbad | hge
              · rw [Bool.not_eq_true'] at hnn
                rw [hnn] at hbad
                exact absurd hbad (by simp)
              · rw [Bool.and_eq_false_iff] at hge
                rcases hv : d.pdf params (jsub start i) with q | _ | _ | _ | _ <;>
                  rw [hv] at hge
                · rcases hge with hge | hle
                  · left
                    rw [jlt_num]
                    rw [show jge (num q) (num 0) = decide ((0:ℚ) ≤ q) from rfl] at hge
                    simp only [decide_eq_false_iff_not, not_le] at hge
                    simpa using hge
                  · right
                    rw [jlt_num]
                    rw [show jle (num q) (num (1/100000)) = decide (q ≤ 1/100000) from rfl] at hle
                    simp only [decide_eq_false_iff_not, not_le] at hle
                    simpa using hle
                · right; rfl
                · left; rfl
                · rw [Bool.not_eq_true'] at hnn
                  rw [hv] at hnn
                  exact absurd hnn (by simp [isNaNb])
                · rw [Bool.not_eq_true'] at hnn
                  rw [hv] at hnn
                  exact absurd hnn (by simp [isNaNb])
            · exact hacc p hp2
          · rw [if_neg hpush]
            exact hacc
      · rw [if_neg hguard] at h
        obtain rfl : acc.reverse = l := by simpa using h
        intro p hp
        exact hacc p (by simpa using hp)

/-- Amended claim C4: for every distribution entry, parameter object and
moments object, the pdf sample returned by `buildDF` is sorted by ascending
`x` (not necessarily strictly: when the mean is NaN or huge both walks start
at `0` and can duplicate an abscissa), every `x` lies within the declared
bounds, and every `y` is non-NaN and either negative (a pdf that goes
negative is pushed, bumping only the degeneracy counter) or above the `1e-5`
cutoff.  The original claim's strictness and `y > 0` both fail — see the
counterexample. -/
theorem C4_amended_sample_invariants (ops : JsOps) (d : DistR) (params : ParamsR)
    (m : MomentsR) (fuel : ℕ) (df : DFR) (h : buildDF ops d params m fuel = some df) :
    df.pdf.Sorted spLe ∧ ∀ p ∈ df.pdf, sampleOK d params p := by
  unfold buildDF at h
  dsimp only at h
  rcases h1 : genPDF d params m (jneg (buildDFinc ops d m)) fuel with _ | l1
  · rw [h1] at h
    exact absurd h (by simp)
  rcases h2 : genPDF d params m (buildDFinc ops d m) fuel with _ | l2
  · rw [h1, h2] at h
    exact absurd h (by simp)
  rw [h1, h2] at h
  simp only [Option.some.injEq] at h
  obtain rfl := h.symm
  constructor
  · exact List.sorted_insertionSort spLe (l1 ++ l2)
  · intro p hp
    have hp2 : p ∈ l1 ++ l2 := (List.perm_insertionSort spLe (l1 ++ l2)).mem_iff.mp hp
    rcases List.mem_append.mp hp2 with hp3 | hp3
    · exact genPDFAux_inv d params m (jneg (buildDFinc ops d m))
        (genPDFstart d m (jneg (buildDFinc ops d m))) fuel (num 0) 0 [] l1
        (by intro q hq; cases hq) h1 p hp3
    · exact genPDFAux_inv d params m (buildDFinc ops d m)
        (genPDFstart d m (buildDFinc ops d m)) fuel (num 0) 0 [] l2
        (by intro q hq; cases hq) h2 p hp3

/-- Strict ascending sortedness of the abscissas, as a Boolean. -/
def strictSortedXB : List SP → Bool
  | [] => true
  | [_] => true
  | p :: q :: t => jlt p.x q.x && strictSortedXB (q :: t)

/-- Counterexample to claim C4 as stated, on the `cauchy` catalog entry with
`gamma = -1` and the moments object its own `mgf` produces (all members
`undefined`).  The undefined mean forces both walks to start at `0`, so the
sample contains `x = 0` twice (not strictly sorted), and the negative scale
makes every sampled density negative, so no `y` is positive.  The run
returns normally (`some`), refuting both the strict-sortedness and the
`y > 0` conjuncts of the claim. -/
theorem C4_counterexample_cauchy :
    (buildDF ops0 (cauchyDistr ops0) { x0 := num 0, gamma := num (-1) } {} 30).map
      (fun df => strictSortedXB df.pdf) = some false ∧
    (buildDF ops0 (cauchyDistr ops0) { x0 := num 0, gamma := num (-1) } {} 30).map
      (fun df => df.pdf.all (fun p => jlt (num 0) p.y)) = some false := by
  constructor
  · with_unfolding_all decide
  · with_unfolding_all decide

/-- Witness for the amended C4: a uniform distribution on `[0,1]` with
ordinary moments; the sampler returns a sample and the invariants hold. -/
theorem C4_amended_witness :
    (buildDF ops0 uniformDistr { a := num 0, b := num 1 }
      { mean := num (1/2), variance := num (1/100) } 60).isSome = true ∧
    Option.elim (buildDF ops0 uniformDistr { a := num 0, b := num 1 }
      { mean := num (1/2), variance := num (1/100) } 60) True
      (fun df => df.pdf.Sorted spLe ∧
        ∀ p ∈ df.pdf, sampleOK uniformDistr { a := num 0, b := num 1 } p) := by
  refine ⟨by with_unfolding_all decide, ?_⟩
  rcases hdf : buildDF ops0 uniformDistr { a := num 0, b := num 1 }
      { mean := num (1/2), variance := num (1/100) } 60 with _ | df
  · exact trivial
  · exact C4_amended_sample_invariants ops0 uniformDistr { a := num 0, b := num 1 }
      { mean := num (1/2), variance := num (1/100) } 60 df hdf

/-! ## Claim C6 -/

/-- Whether an optional value is a returned finite number. -/
def isSomeNum : Option JsNum → Bool
  | some (num _) => true
  | _ => false

/-- Whether a value is a finite number. -/
def isNumB : JsNum → Bool
  | num _ => true
  | _ => false

/-- Amended claim C6: whenever the shared auxiliary series converges to a
real value `s` **and** `pow(x,a)`, `gamma(a)` and `exp(-x)` are finite reals
(in particular `x ≥ 0`, ruling out the NaN of a negative base under a
fractional power), the round-trip identity holds exactly:
`ligamma(a,x) + uigamma(a,x) = gamma(a)`, because the same series value `s`
is used on both sides and the two expressions sum to `gamma(a)`
algebraically.  As originally stated (only the convergence hypothesis) the
claim is false — see the counterexample with `x < 0`. -/
theorem C6_amended_roundtrip (ops : JsOps) (a x : JsNum) (s α γ ε : ℚ)
    (hS : ligammaSeries ops a x = some (num s))
    (hA : jsPow ops x a = num α)
    (hG : gammaJ ops a = num γ)
    (hE : jsExp ops (jneg x) = num ε) :
    ligammaJ ops a x = some (num (α * γ * ε * s)) ∧
    uigammaJ ops a x = some (num (γ * (1 - α * ε * s))) ∧
    jadd (num (α * γ * ε * s)) (num (γ * (1 - α * ε * s))) = gammaJ ops a := by
  refine ⟨?_, ?_, ?_⟩
  · unfold ligammaJ
    rw [hS, Option.map_some', hA, hG, hE, jmul_num, jmul_num, jmul_num]
  · unfold uigammaJ
    rw [hS, Option.map_some', hA, hG, hE, jmul_num, jmul_num, jsub_num, jmul_num]
  · rw [jadd_num, hG]
    congr 1
    ring

/-- Counterexample to claim C6 as stated, at `(a, x) = (1/2, -1)`: the
auxiliary series converges to a real value (the gamma factors grow without
bound, so the one-step-ahead test fires), yet
`ligamma(1/2,-1) + uigamma(1/2,-1) = NaN + NaN = NaN ≠ gamma(1/2)`, because
`pow(-1, 1/2)` is NaN.  (The NaN of `pow` on a negative base with fractional
exponent is computed exactly and does not depend on the abstract host
primitives; the concrete bundle `ops0` makes the whole run computable.) -/
theorem C6_counterexample_negative_x :
    isSomeNum (ligammaSeries ops0 (num (1/2)) (num (-1))) = true ∧
    ligammaJ ops0 (num (1/2)) (num (-1)) = some nan ∧
    uigammaJ ops0 (num (1/2)) (num (-1)) = some nan ∧
    (gammaJ ops0 (num (1/2))).isNaNb = false ∧
    jadd nan nan ≠ gammaJ ops0 (num (1/2)) := by
  refine ⟨?_, ?_, ?_, ?_, ?_⟩
  · with_unfolding_all decide
  · with_unfolding_all decide
  · with_unfolding_all decide
  · with_unfolding_all decide
  · with_unfolding_all decide

/-- Witness for the amended C6 at `(a, x) = (1, 1)` under the concrete
bundle `ops0`: the series converges, all three factors are finite, and
`ligamma + uigamma` returns exactly `gamma(1)`. -/
theorem C6_amended_roundtrip_witness :
    Option.bind (ligammaJ ops0 (num 1) (num 1)) (fun L =>
      Option.bind (uigammaJ ops0 (num 1) (num 1)) (fun U =>
        some (jadd L U))) = some (gammaJ ops0 (num 1)) := by
  have h1 : isSomeNum (ligammaSeries ops0 (num 1) (num 1)) = true := by
    with_unfolding_all decide
  have h2 : isNumB (gammaJ ops0 (num 1)) = true := by
    with_unfolding_all decide
  rcases hS : ligammaSeries ops0 (num 1) (num 1) with _ | v
  · rw [hS] at h1
    exact absurd h1 (by simp [isSomeNum])
  rcases v with s | _ | _ | _ | _
  rotate_left
  · rw [hS] at h1; exact absurd h1 (by simp [isSomeNum])
  · rw [hS] at h1; exact absurd h1 (by simp [isSomeNum])
  · rw [hS] at h1; exact absurd h1 (by simp [isSomeNum])
  · rw [hS] at h1; exact absurd h1 (by simp [isSomeNum])
  rcases hG : gammaJ ops0 (num 1) with γq | _ | _ | _ | _
  rotate_left
  · rw [hG] at h2; exact absurd h2 (by simp [isNumB])
  · rw [hG] at h2; exact absurd h2 (by simp [isNumB])
  · rw [hG] at h2; exact absurd h2 (by simp [isNumB])
  · rw [hG] at h2; exact absurd h2 (by simp [isNumB])
  have hA : jsPow ops0 (num 1) (num 1) = num 1 := by with_unfolding_all decide
  have hE : jsExp ops0 (jneg (num 1)) = num 1 := by with_unfolding_all decide
  obtain ⟨hL, hU, hadd⟩ := C6_amended_roundtrip ops0 (num 1) (num 1) s 1 γq 1 hS hA hG hE
  rw [hL, hU]
  show some (jadd (num (1 * γq * 1 * s)) (num (γq * (1 - 1 * 1 * s)))) = some (num γq)
  rw [hG] at hadd
  exact congrArg some hadd
